import Mathlib

/-!
Verification of the rrule recurrence library (RFC 5545 recurrence expansion,
Go implementation).  The program's civil-time values (`time.Time` in UTC at
second precision) are shallowly embedded as a `DateTime` record of calendar
fields together with conversions to and from an absolute second count
(days-since-epoch algorithms for the proleptic Gregorian calendar, matching
the normalization performed by Go's `time.Date`).  The per-frequency drivers
and `Validate` are translated from `rrule.go`; the iterator kernel, the
BY-rule limiters and expanders, and small helpers that the repository keeps
in files not present here are modelled from the specification where noted.
-/

namespace RRuleProof

/-- Gregorian leap-year test, as used by the library (Gregorian scale only). -/
def isLeapYear (y : Int) : Bool :=
  y.tmod 4 = 0 && (y.tmod 100 ≠ 0 || y.tmod 400 = 0)

/-- Length of a month in the proleptic Gregorian calendar. -/
def daysInMonth (y m : Int) : Int :=
  if m = 1 then 31 else
  if m = 2 then (if isLeapYear y then 29 else 28) else
  if m = 3 then 31 else
  if m = 4 then 30 else
  if m = 5 then 31 else
  if m = 6 then 30 else
  if m = 7 then 31 else
  if m = 8 then 31 else
  if m = 9 then 30 else
  if m = 10 then 31 else
  if m = 11 then 30 else 31

/-- Days since 1970-01-01 of a Gregorian civil date (m ∈ [1,12] assumed
normalized).  Standard era-based algorithm, as performed internally by Go's
`time` package when constructing a `time.Time` from calendar fields. -/
def daysFromCivil (y m d : Int) : Int :=
  let y2 := if m ≤ 2 then y - 1 else y
  let era := y2.fdiv 400
  let yoe := y2 - era * 400
  let mp := if m > 2 then m - 3 else m + 9
  let doy := (153 * mp + 2).fdiv 5 + d - 1
  let doe := yoe * 365 + yoe.fdiv 4 - yoe.fdiv 100 + doy
  era * 146097 + doe - 719468

/-- Civil date (y, m, d) of a days-since-1970-01-01 count. -/
def civilFromDays (z0 : Int) : Int × Int × Int :=
  let z := z0 + 719468
  let era := z.fdiv 146097
  let doe := z - era * 146097
  let yoe := (doe - doe.fdiv 1460 + doe.fdiv 36524 - doe.fdiv 146096).fdiv 365
  let y := yoe + era * 400
  let doy := doe - (365 * yoe + yoe.fdiv 4 - yoe.fdiv 100)
  let mp := (5 * doy + 2).fdiv 153
  let d := doy - (153 * mp + 2).fdiv 5 + 1
  let m := if mp < 10 then mp + 3 else mp - 9
  (if m ≤ 2 then y + 1 else y, m, d)

/-- A civil datetime at second resolution (the embedding of `time.Time` in
UTC; the library truncates to whole seconds). Fields are kept normalized:
month ∈ [1,12], day valid for the month, hour/minute/second in range. -/
structure DateTime where
  year : Int
  month : Int
  day : Int
  hour : Int
  minute : Int
  second : Int
deriving DecidableEq, Repr

/-- Datetime of an absolute second count (seconds since 1970-01-01T00:00:00). -/
def ofSecs (n : Int) : DateTime :=
  let z := n.fdiv 86400
  let sod := n.fmod 86400
  let c := civilFromDays z
  ⟨c.1, c.2.1, c.2.2, sod.fdiv 3600, (sod.fmod 3600).fdiv 60, sod.fmod 60⟩

/-- Absolute second count of a normalized datetime. -/
def toSecs (t : DateTime) : Int :=
  86400 * daysFromCivil t.year t.month t.day
    + 3600 * t.hour + 60 * t.minute + t.second

/-- Construct a datetime from possibly-denormalized calendar fields,
normalizing exactly the way Go's `time.Date` does: months fold into years,
then the (possibly out-of-range) day and time of day are resolved through
absolute-day arithmetic.  `mkDateTime 2019 2 30 0 0 0` is March 2. -/
def mkDateTime (y m d hh mi ss : Int) : DateTime :=
  let ym := y + (m - 1).fdiv 12
  let mm := (m - 1).fmod 12 + 1
  ofSecs (86400 * (daysFromCivil ym mm 1 + (d - 1)) + 3600 * hh + 60 * mi + ss)

/-- Go `time.Time.Add` restricted to whole seconds. -/
def addSecs (t : DateTime) (k : Int) : DateTime := ofSecs (toSecs t + k)

/-- Go `time.Time.AddDate`: add years, months, days with Go's normalization. -/
def addDate (t : DateTime) (y m d : Int) : DateTime :=
  mkDateTime (t.year + y) (t.month + m) (t.day + d) t.hour t.minute t.second

/-- Strict instant order (Bool form used by the iterator code). -/
def dtLtb (t u : DateTime) : Bool := toSecs t < toSecs u

/-- Weekday of a datetime, Go numbering: 0 = Sunday … 6 = Saturday. -/
def weekdayOf (t : DateTime) : Int :=
  (daysFromCivil t.year t.month t.day + 4).fmod 7

/-- Day of year, 1-based. -/
def dayOfYear (t : DateTime) : Int :=
  daysFromCivil t.year t.month t.day - daysFromCivil t.year 1 1 + 1

/-- Number of days in a year. -/
def yearLength (y : Int) : Int := if isLeapYear y then 366 else 365

/-- The zero `time.Time`: January 1, year 1, 00:00:00 UTC. -/
def goZeroTime : DateTime := ⟨1, 1, 1, 0, 0, 0⟩

/-- ISO week number of a date (Monday-based, week 1 contains January 4),
as computed by Go's `time.Time.ISOWeek`. -/
def isoWeekNumber (t : DateTime) : Int :=
  let z := daysFromCivil t.year t.month t.day
  let thursday := z + 3 - (z + 3).fmod 7
  let y := (civilFromDays thursday).1
  (thursday - daysFromCivil y 1 1).fdiv 7 + 1

/-- Day count (since epoch) of the first day of week 1 of year `y`, for a
week beginning on weekday `wkst`; week 1 is the week containing January 4. -/
def week1Start (wkst y : Int) : Int :=
  let jan4 := daysFromCivil y 1 4
  jan4 - ((jan4 + 4 - wkst).fmod 7)

/-- Number of ISO weeks in a year, relative to a week-start day (52 or 53). -/
def weeksInYear (wkst y : Int) : Int :=
  (week1Start wkst (y + 1) - week1Start wkst y).fdiv 7

/-- Go `time.Weekday` constants. -/
def Sunday : Int := 0
def Monday : Int := 1
def Tuesday : Int := 2
def Wednesday : Int := 3
def Thursday : Int := 4
def Friday : Int := 5
def Saturday : Int := 6

example : mkDateTime 2018 8 25 9 8 7 = ⟨2018, 8, 25, 9, 8, 7⟩ := by decide
example : mkDateTime 2019 2 30 0 0 0 = ⟨2019, 3, 2, 0, 0, 0⟩ := by decide
example : mkDateTime 2020 2 30 0 0 0 = ⟨2020, 3, 1, 0, 0, 0⟩ := by decide
example : addDate ⟨2019, 8, 29, 0, 0, 0⟩ 0 6 0 = ⟨2020, 2, 29, 0, 0, 0⟩ := by decide
example : addDate ⟨2020, 8, 29, 0, 0, 0⟩ 0 6 0 = ⟨2021, 3, 1, 0, 0, 0⟩ := by decide
example : weekdayOf ⟨2018, 8, 25, 9, 8, 7⟩ = 6 := by decide
example : dayOfYear ⟨2016, 12, 31, 0, 0, 0⟩ = 366 := by decide
example : toSecs goZeroTime = -62135596800 := by decide
example : ofSecs (toSecs ⟨2018, 8, 25, 9, 8, 7⟩) = ⟨2018, 8, 25, 9, 8, 7⟩ := by decide

/-! ## The pattern data model (`rrule.go`) -/

/-- The `Frequency` constants from `frequency.go` (`Frequency` is a Go `int`). -/
def Secondly : Int := 0
def Minutely : Int := 1
def Hourly : Int := 2
def Daily : Int := 3
def Weekly : Int := 4
def Monthly : Int := 5
def Yearly : Int := 6

/-- A BYDAY entry: optional signed ordinal `n` and a weekday `wd`. -/
structure QualifiedWeekday where
  n : Int
  wd : Int
deriving DecidableEq, Repr

/-- Modelled from the spec: the `InvalidBehavior` constants (their declaring
file is not part of the sources here; OMIT is the default/zero value). -/
inductive InvalidBehavior
  | OmitInvalid
  | NextInvalid
  | PrevInvalid
deriving DecidableEq, Repr

/-- The `RRule` struct.  Go's zero `time.Time` marks `Until`/`Dtstart` as
unset; `Interval = 0` means the default 1; `Count = 0` means no count. -/
structure RRule where
  Frequency : Int
  Until : DateTime
  UntilFloating : Bool
  Count : Nat
  Dtstart : DateTime
  Interval : Int
  BySeconds : List Int
  ByMinutes : List Int
  ByHours : List Int
  ByWeekdays : List QualifiedWeekday
  ByMonthDays : List Int
  ByWeekNumbers : List Int
  ByMonths : List Int
  ByYearDays : List Int
  BySetPos : List Int
  InvalidBehavior : InvalidBehavior
  WeekStart : Option Int
deriving DecidableEq, Repr

/-- An `RRule` with every field at its Go zero value. -/
def defaultRRule : RRule :=
  ⟨Secondly, goZeroTime, false, 0, goZeroTime, 0, [], [], [], [], [], [], [], [],
   [], .OmitInvalid, none⟩

/-- The distinct validation failures produced by `Validate` (`rrule.go`
returns `errors.New` values; we identify them by the check that fired). -/
inductive ValidationError
  | numericWeekdayBadFreq
  | numericWeekdayWithWeekNo
  | weeklyWithMonthDays
  | setPosWithoutSibling
  | countAndUntil
  | setPosOutOfRange
deriving DecidableEq, Repr

/-- Method `RRule.Validate` from `rrule.go`: the exact sequence of checks, in
source order.  `none` means the pattern is valid. -/
def RRule.Validate (r : RRule) : Option ValidationError :=
  if r.Frequency ≠ Yearly ∧ r.Frequency ≠ Monthly ∧ r.ByWeekdays.any (fun wd => wd.n ≠ 0) then
    some .numericWeekdayBadFreq
  else if r.Frequency = Yearly ∧ r.ByWeekNumbers ≠ [] ∧ r.ByWeekdays.any (fun wd => wd.n ≠ 0) then
    some .numericWeekdayWithWeekNo
  else if r.Frequency = Weekly ∧ r.ByMonthDays ≠ [] then
    some .weeklyWithMonthDays
  else if r.BySetPos ≠ [] ∧ r.BySeconds = [] ∧ r.ByMinutes = [] ∧ r.ByHours = [] ∧
      r.ByWeekdays = [] ∧ r.ByMonthDays = [] ∧ r.ByWeekNumbers = [] ∧
      r.ByMonths = [] ∧ r.ByYearDays = [] then
    some .setPosWithoutSibling
  else if r.Count ≠ 0 ∧ r.Until ≠ goZeroTime then
    some .countAndUntil
  else if r.BySetPos.any (fun sp => sp = 0 || sp < -366 || sp > 366) then
    some .setPosOutOfRange
  else
    none

/-- Method `weekStart()` from `rrule.go`: Monday when unset. -/
def RRule.weekStart (r : RRule) : Int := r.WeekStart.getD Monday

/-! ## Batch ordering

The spec orders each candidate batch ascending by instant and drops exact
duplicates.  `sortTimes` sorts by absolute second count; `dedupSorted`
removes adjacent duplicates of a sorted list. -/

/-- Non-strict instant order as a relation (for sorting). -/
def timeRel (a b : DateTime) : Prop := toSecs a ≤ toSecs b

instance : DecidableRel timeRel := fun a b =>
  inferInstanceAs (Decidable (toSecs a ≤ toSecs b))

/-- Sort a batch ascending by instant. -/
def sortTimes (ts : List DateTime) : List DateTime := List.insertionSort timeRel ts

/-- Remove adjacent duplicates (complete deduplication on sorted input). -/
def dedupSorted : List DateTime → List DateTime
  | [] => []
  | [t] => [t]
  | t :: u :: rest =>
      if t = u then dedupSorted (u :: rest) else t :: dedupSorted (u :: rest)

/-- Sort ascending and drop exact duplicates: the batch normal form. -/
def sortDedupT (ts : List DateTime) : List DateTime := dedupSorted (sortTimes ts)

/-! ## BY-rule limiters

Modelled from the spec: the `validXxx` limiter functions live in a file not
present in the sources.  Each is a pure predicate: the empty list accepts
everything, otherwise the instant's field must match a listed value
(negative values on the signed axes count from the end of the period). -/

/-- Modelled from the spec: `validSecond`. -/
def validSecond (vals : List Int) (t : DateTime) : Bool :=
  vals.isEmpty || vals.contains t.second

/-- Modelled from the spec: `validMinute`. -/
def validMinute (vals : List Int) (t : DateTime) : Bool :=
  vals.isEmpty || vals.contains t.minute

/-- Modelled from the spec: `validHour`. -/
def validHour (vals : List Int) (t : DateTime) : Bool :=
  vals.isEmpty || vals.contains t.hour

/-- Modelled from the spec: `validMonth`. -/
def validMonth (vals : List Int) (t : DateTime) : Bool :=
  vals.isEmpty || vals.contains t.month

/-- Modelled from the spec: `validWeekday` (the limiter form matches on the
weekday alone; ordinals act only in the expander forms). -/
def validWeekday (wds : List QualifiedWeekday) (t : DateTime) : Bool :=
  wds.isEmpty || wds.any (fun w => w.wd = weekdayOf t)

/-- Modelled from the spec: `validMonthDay` (negative = from month end). -/
def validMonthDay (vals : List Int) (t : DateTime) : Bool :=
  vals.isEmpty || vals.any (fun v =>
    v = t.day ∨ v = t.day - (daysInMonth t.year t.month + 1))

/-- Modelled from the spec: `validYearDay` (negative = from year end). -/
def validYearDay (vals : List Int) (t : DateTime) : Bool :=
  vals.isEmpty || vals.any (fun v =>
    v = dayOfYear t ∨ v = dayOfYear t - (yearLength t.year + 1))

/-- Modelled from the spec: `validWeek` (ISO week number; negative = from
the last week of the year). -/
def validWeek (vals : List Int) (t : DateTime) : Bool :=
  vals.isEmpty || vals.any (fun v =>
    v = isoWeekNumber t ∨ v = isoWeekNumber t - (weeksInYear Monday t.year + 1))

/-! ## BYSETPOS selection -/

/-- Modelled from the spec: `limitBySetPos`.  Positions index 1-based into
the batch; negative positions count from the end (−1 is the last element);
positions beyond the batch are ignored; the selected subset preserves the
input order.  An empty position list leaves the batch unchanged. -/
def limitBySetPos (ts : List DateTime) (poss : List Int) : List DateTime :=
  if poss = [] then ts
  else
    ((ts.enum).filter (fun p =>
      poss.any (fun sp => sp = (p.1 : Int) + 1 ∨ sp = (p.1 : Int) - (ts.length : Int)))).map
      (fun p => p.2)

/-! ## BY-rule expanders

Modelled from the spec: the `expandXxx` functions live in a file not present
in the sources.  Each maps a batch to a larger batch by substituting the
relevant field(s), applies the invalid-date policy where the resolved date
may not exist, and returns the batch sorted ascending without duplicates.
An empty parameter list is the identity. -/

/-- Modelled from the spec: `expandBySeconds`. -/
def expandBySeconds (ts : List DateTime) (vals : List Int) : List DateTime :=
  if vals = [] then ts
  else sortDedupT (ts.flatMap (fun t => vals.map (fun v =>
    mkDateTime t.year t.month t.day t.hour t.minute v)))

/-- Modelled from the spec: `expandByMinutes`. -/
def expandByMinutes (ts : List DateTime) (vals : List Int) : List DateTime :=
  if vals = [] then ts
  else sortDedupT (ts.flatMap (fun t => vals.map (fun v =>
    mkDateTime t.year t.month t.day t.hour v t.second)))

/-- Modelled from the spec: `expandByHours`. -/
def expandByHours (ts : List DateTime) (vals : List Int) : List DateTime :=
  if vals = [] then ts
  else sortDedupT (ts.flatMap (fun t => vals.map (fun v =>
    mkDateTime t.year t.month t.day v t.minute t.second)))

/-- Modelled from the spec: resolution of one BYMONTHDAY value against one
instant.  Negative days count from the month end; a resolved day outside the
month triggers the invalid-date policy (OMIT drops; ROLL_FORWARD moves to
the next valid calendar day; ROLL_BACKWARD to the previous valid day). -/
def resolveMonthDay (ib : InvalidBehavior) (t : DateTime) (v : Int) : Option DateTime :=
  let len := daysInMonth t.year t.month
  let d := if v < 0 then len + 1 + v else v
  if 1 ≤ d ∧ d ≤ len then
    some (mkDateTime t.year t.month d t.hour t.minute t.second)
  else
    match ib with
    | .OmitInvalid => none
    | .NextInvalid =>
        some (if d < 1 then mkDateTime t.year t.month 1 t.hour t.minute t.second
              else mkDateTime t.year t.month d t.hour t.minute t.second)
    | .PrevInvalid =>
        some (if d > len then mkDateTime t.year t.month len t.hour t.minute t.second
              else mkDateTime t.year t.month d t.hour t.minute t.second)

/-- Modelled from the spec: `expandByMonthDays`. -/
def expandByMonthDays (ts : List DateTime) (ib : InvalidBehavior)
    (vals : List Int) : List DateTime :=
  if vals = [] then ts
  else sortDedupT (ts.flatMap (fun t => vals.filterMap (fun v => resolveMonthDay ib t v)))

/-- Modelled from the spec: resolution of one BYYEARDAY value.  Negative
days count from the year end; day 366 of a non-leap year triggers the
policy: OMIT drops, ROLL_FORWARD yields January 1 of the next year,
ROLL_BACKWARD yields December 31 of the same year. -/
def resolveYearDay (ib : InvalidBehavior) (t : DateTime) (v : Int) : Option DateTime :=
  let len := yearLength t.year
  let d := if v < 0 then len + 1 + v else v
  if 1 ≤ d ∧ d ≤ len then
    some (mkDateTime t.year 1 d t.hour t.minute t.second)
  else
    match ib with
    | .OmitInvalid => none
    | .NextInvalid =>
        some (if d < 1 then mkDateTime t.year 1 1 t.hour t.minute t.second
              else mkDateTime t.year 1 d t.hour t.minute t.second)
    | .PrevInvalid =>
        some (if d > len then mkDateTime t.year 1 len t.hour t.minute t.second
              else mkDateTime t.year 1 d t.hour t.minute t.second)

/-- Modelled from the spec: `expandByYearDays`. -/
def expandByYearDays (ts : List DateTime) (ib : InvalidBehavior)
    (vals : List Int) : List DateTime :=
  if vals = [] then ts
  else sortDedupT (ts.flatMap (fun t => vals.filterMap (fun v => resolveYearDay ib t v)))

/-- Modelled from the spec: resolution of one BYMONTH value: replace the
month; when the instant's day exceeds the target month's length apply the
invalid-date policy. -/
def resolveMonth (ib : InvalidBehavior) (t : DateTime) (v : Int) : Option DateTime :=
  if t.day ≤ daysInMonth t.year v then
    some (mkDateTime t.year v t.day t.hour t.minute t.second)
  else
    match ib with
    | .OmitInvalid => none
    | .NextInvalid => some (mkDateTime t.year v t.day t.hour t.minute t.second)
    | .PrevInvalid =>
        some (mkDateTime t.year v (daysInMonth t.year v) t.hour t.minute t.second)

/-- Modelled from the spec: `expandByMonths`. -/
def expandByMonths (ts : List DateTime) (ib : InvalidBehavior)
    (vals : List Int) : List DateTime :=
  if vals = [] then ts
  else sortDedupT (ts.flatMap (fun t => vals.filterMap (fun v => resolveMonth ib t v)))

/-- All dates of the instant's month falling on weekday `wd`, at the
instant's time of day, ascending. -/
def weekdaysInMonth (t : DateTime) (wd : Int) : List DateTime :=
  ((List.range (daysInMonth t.year t.month).toNat).map (fun i =>
    mkDateTime t.year t.month ((i : Int) + 1) t.hour t.minute t.second)).filter
    (fun u => weekdayOf u = wd)

/-- All dates of the instant's year falling on weekday `wd`, ascending. -/
def weekdaysInYear (t : DateTime) (wd : Int) : List DateTime :=
  ((List.range (yearLength t.year).toNat).map (fun i =>
    mkDateTime t.year 1 ((i : Int) + 1) t.hour t.minute t.second)).filter
    (fun u => weekdayOf u = wd)

/-- Signed 1-based selection: positive picks the nth from the start,
negative the |n|-th from the end, and a missing occurrence is dropped. -/
def nthSigned (l : List DateTime) (n : Int) : Option DateTime :=
  if n > 0 then l.get? (n - 1).toNat
  else if n < 0 then
    (if (l.length : Int) + n < 0 then none else l.get? ((l.length : Int) + n).toNat)
  else none

/-- Modelled from the spec: `expandMonthByWeekdays` — expand qualified
weekdays within each instant's month (ordinal 0 = every such weekday; a
nonexistent ordinal occurrence is dropped), then apply BYSETPOS within the
month-scoped batch. -/
def expandMonthByWeekdays (ts : List DateTime) (_ib : InvalidBehavior)
    (setpos : List Int) (wds : List QualifiedWeekday) : List DateTime :=
  if wds = [] then ts
  else
    limitBySetPos
      (sortDedupT (ts.flatMap (fun t => wds.flatMap (fun w =>
        if w.n = 0 then weekdaysInMonth t w.wd
        else (nthSigned (weekdaysInMonth t w.wd) w.n).toList)))) setpos

/-- Modelled from the spec: `expandYearByWeekdays` — expand qualified
weekdays within each instant's year. -/
def expandYearByWeekdays (ts : List DateTime) (_ib : InvalidBehavior)
    (wds : List QualifiedWeekday) : List DateTime :=
  if wds = [] then ts
  else
    sortDedupT (ts.flatMap (fun t => wds.flatMap (fun w =>
      if w.n = 0 then weekdaysInYear t w.wd
      else (nthSigned (weekdaysInYear t w.wd) w.n).toList)))

/-- The date of weekday `wd` inside the week (beginning on `wkst`) that
contains `t`, keeping `t`'s time of day. -/
def dayInWeekOf (t : DateTime) (wkst wd : Int) : DateTime :=
  addDate t 0 0 (((wd - wkst).fmod 7) - ((weekdayOf t - wkst).fmod 7))

/-- Modelled from the spec: `expandByWeekdays` — for WEEKLY, expand plain
weekdays within each instant's week. -/
def expandByWeekdays (ts : List DateTime) (wkst : Int)
    (wds : List QualifiedWeekday) : List DateTime :=
  if wds = [] then ts
  else sortDedupT (ts.flatMap (fun t => wds.map (fun w => dayInWeekOf t wkst w.wd)))

/-- A day count combined with an instant's time of day. -/
def dayPlusTime (z : Int) (t : DateTime) : DateTime :=
  ofSecs (86400 * z + 3600 * t.hour + 60 * t.minute + t.second)

/-- Days of ISO week `w` of the instant's year (negative `w` counts from
the last week), restricted to `plainDays` when that list is non-empty. -/
def weekNumberDays (t : DateTime) (wkst : Int) (plainDays : List Int)
    (w : Int) : List DateTime :=
  let n := weeksInYear wkst t.year
  let w2 := if w < 0 then n + 1 + w else w
  if 1 ≤ w2 ∧ w2 ≤ n then
    ((List.range 7).map (fun i => dayPlusTime (week1Start wkst t.year + 7 * (w2 - 1) + i) t)).filter
      (fun u => plainDays.isEmpty || plainDays.contains (weekdayOf u))
  else []

/-- Modelled from the spec: `expandByWeekNumbers` — for YEARLY with
BYWEEKNO, expand each listed ISO week to its days (filtered to the plain
BYDAY weekdays when present). -/
def expandByWeekNumbers (ts : List DateTime) (_ib : InvalidBehavior)
    (wkst : Int) (plainDays : List Int) (vals : List Int) : List DateTime :=
  if vals = [] then ts
  else sortDedupT (ts.flatMap (fun t => vals.flatMap (fun w => weekNumberDays t wkst plainDays w)))

/-- Helper `plainWeekdays`: the weekday components of a BYDAY list. -/
def plainWeekdays (wds : List QualifiedWeekday) : List Int := wds.map (fun w => w.wd)

/-! ## The iterator record and the per-frequency drivers (`rrule.go`) -/

/-- Modelled from the spec: the representable horizon (`absoluteMaxTime`),
the largest instant the implementation iterates to. -/
def absoluteMaxTime : DateTime := mkDateTime 292277024627 1 1 0 0 0

/-- Helper `timeOrMax` from `rrule.go`. -/
def timeOrMax (t : DateTime) : DateTime :=
  if t = goZeroTime then absoluteMaxTime else t

/-- The mutable state captured by a driver's `next` closure: the advancing
cursor plus the loop index and first-step flag used by the optimized
SECONDLY driver (unused by the other drivers). -/
structure NextState where
  cur : DateTime
  loopIdx : Nat
  afterFirst : Bool
deriving DecidableEq, Repr

/-- The `iterator` struct: bounds, the count cap, the BYSETPOS list, and
the driver's three operations (`next` advances a pivot cursor, `valid`
filters candidates, `variations` expands a pivot into its batch). -/
structure iterator where
  minTime : DateTime
  maxTime : DateTime
  queueCap : Nat
  setpos : List Int
  startState : NextState
  next : NextState → DateTime × NextState
  valid : DateTime → Bool
  variations : DateTime → List DateTime

/-- The `start` computation shared by every driver: the zero `Dtstart` is
replaced by the current time. -/
def startOf (r : RRule) (now : DateTime) : DateTime :=
  if r.Dtstart = goZeroTime then now else r.Dtstart

/-- The `interval` computation shared by every driver: 0 defaults to 1. -/
def intervalOf (r : RRule) : Int := if r.Interval = 0 then 1 else r.Interval

/-- Lift a pure cursor-advance function to a stateful `next` (return the
cursor, then advance it). -/
def stepState (f : DateTime → DateTime) (st : NextState) : DateTime × NextState :=
  (st.cur, { st with cur := f st.cur })

/-- BYSECOND normalization in the optimized SECONDLY path: negative listed
seconds have 60 added (`rrule.go`). -/
def normSeconds (vals : List Int) : List Int :=
  vals.map (fun s => if s < 0 then s + 60 else s)

/-- Ascending integer sort (`sort.Ints`). -/
def sortInts (l : List Int) : List Int :=
  List.insertionSort (fun a b : Int => a ≤ b) l

/-- The tail of the `secondsLooper` construction: gaps between consecutive
sorted seconds, the last wrapping around to the first plus 60. -/
def looperAux (first : Int) : List Int → List Int
  | [] => []
  | [a] => [60 + first - a]
  | a :: b :: rest => (b - a) :: looperAux first (b :: rest)

/-- Helper `secondsLooper` from `rrule.go`: the cyclic gap table of a sorted
non-empty seconds list. -/
def secondsLooper : List Int → List Int
  | [] => []
  | h :: rest => looperAux h (h :: rest)

/-- The `wentPastInitial` scan of `rrule.go`: the index of the first listed
second strictly past the start's second, with the jump to it. -/
def findPast (s0 : Int) : List Int → Nat → Option (Nat × Int)
  | [], _ => none
  | s :: rest, i => if s > s0 then some (i, s - s0) else findPast s0 rest (i + 1)

/-- The initial loop index and first jump of the optimized SECONDLY driver:
either the first listed second past the start, or (wrapping) the smallest
listed second in the next minute. -/
def firstJump (s0 : Int) (seconds : List Int) : Nat × Int :=
  match findPast s0 seconds 0 with
  | some p => p
  | none => (0, seconds.headD 0 + 60 - s0)

/-- The `secondsLooperFn` closure: emit the cursor, advance it by the gap
at the loop index, and step the index cyclically. -/
def secondlyLooperNext (looper : List Int) (st : NextState) : DateTime × NextState :=
  let d := looper.getD st.loopIdx 0
  let li := st.loopIdx + 1
  let li2 := if li ≥ looper.length then 0 else li
  (st.cur, ⟨addSecs st.cur d, li2, st.afterFirst⟩)

/-- The optimized SECONDLY `nextFn`: the first step jumps by `firstDiff`,
later steps follow the gap table. -/
def secondlyOptNext (firstDiff : Int) (looper : List Int)
    (st : NextState) : DateTime × NextState :=
  if st.afterFirst then secondlyLooperNext looper st
  else (st.cur, ⟨addSecs st.cur firstDiff, st.loopIdx, true⟩)

/-- Driver `setSecondly` from `rrule.go`, including the optimized advance used
when the interval is 1 and BYSECOND is present. -/
def setSecondly (r : RRule) (now : DateTime) : iterator :=
  let start := startOf r now
  let interval := intervalOf r
  let base : iterator :=
    { minTime := start
      maxTime := timeOrMax r.Until
      queueCap := r.Count
      setpos := r.BySetPos
      startState := ⟨start, 0, false⟩
      next := stepState (fun t => addSecs t interval)
      valid := fun t =>
        validSecond r.BySeconds t && validMinute r.ByMinutes t &&
        validHour r.ByHours t && validWeekday r.ByWeekdays t &&
        validMonthDay r.ByMonthDays t && validMonth r.ByMonths t &&
        validWeek r.ByWeekNumbers t && validYearDay r.ByYearDays t
      variations := fun t => [t] }
  if interval = 1 ∧ r.BySeconds ≠ [] then
    let seconds := sortInts (normSeconds r.BySeconds)
    let fj := firstJump start.second seconds
    { base with
        startState := ⟨start, fj.1, false⟩
        next := secondlyOptNext fj.2 (secondsLooper seconds) }
  else base

/-- Driver `setMinutely` from `rrule.go`. -/
def setMinutely (r : RRule) (now : DateTime) : iterator :=
  let start := startOf r now
  let interval := intervalOf r
  { minTime := start
    maxTime := timeOrMax r.Until
    queueCap := r.Count
    setpos := r.BySetPos
    startState := ⟨start, 0, false⟩
    next := stepState (fun t => addSecs t (interval * 60))
    valid := fun t =>
      validMonth r.ByMonths t && validWeek r.ByWeekNumbers t &&
      validYearDay r.ByYearDays t && validMonthDay r.ByMonthDays t &&
      validWeekday r.ByWeekdays t && validHour r.ByHours t &&
      validMinute r.ByMinutes t
    variations := fun t =>
      limitBySetPos (expandBySeconds [t] r.BySeconds) r.BySetPos }

/-- Driver `setHourly` from `rrule.go`. -/
def setHourly (r : RRule) (now : DateTime) : iterator :=
  let start := startOf r now
  let interval := intervalOf r
  { minTime := start
    maxTime := timeOrMax r.Until
    queueCap := r.Count
    setpos := r.BySetPos
    startState := ⟨start, 0, false⟩
    next := stepState (fun t => addSecs t (interval * 3600))
    valid := fun t =>
      validMonth r.ByMonths t && validWeek r.ByWeekNumbers t &&
      validYearDay r.ByYearDays t && validMonthDay r.ByMonthDays t &&
      validWeekday r.ByWeekdays t && validHour r.ByHours t
    variations := fun t =>
      limitBySetPos (expandBySeconds (expandByMinutes [t] r.ByMinutes) r.BySeconds)
        r.BySetPos }

/-- Driver `setDaily` from `rrule.go`. -/
def setDaily (r : RRule) (now : DateTime) : iterator :=
  let start := startOf r now
  let interval := intervalOf r
  { minTime := start
    maxTime := timeOrMax r.Until
    queueCap := r.Count
    setpos := r.BySetPos
    startState := ⟨start, 0, false⟩
    next := stepState (fun t => addDate t 0 0 interval)
    valid := fun t =>
      validMonth r.ByMonths t && validMonthDay r.ByMonthDays t &&
      validWeekday r.ByWeekdays t
    variations := fun t =>
      limitBySetPos
        (expandByHours (expandByMinutes (expandBySeconds [t] r.BySeconds)
          r.ByMinutes) r.ByHours) r.BySetPos }

/-- Driver `setWeekly` from `rrule.go`: BYSETPOS is applied before the weekday
expansion, exactly as in the source. -/
def setWeekly (r : RRule) (now : DateTime) : iterator :=
  let start := startOf r now
  let interval := intervalOf r
  { minTime := start
    maxTime := timeOrMax r.Until
    queueCap := r.Count
    setpos := r.BySetPos
    startState := ⟨start, 0, false⟩
    next := stepState (fun t => addDate t 0 0 (interval * 7))
    valid := fun t => validMonth r.ByMonths t
    variations := fun t =>
      expandByWeekdays
        (limitBySetPos
          (expandByHours (expandByMinutes (expandBySeconds [t] r.BySeconds)
            r.ByMinutes) r.ByHours) r.BySetPos)
        r.weekStart r.ByWeekdays }

/-- Modelled from the spec: `monthDiff`, the month-count difference between
two instants (used by the MONTHLY leap-day advance; its defining file is
not among the sources). -/
def monthDiff (a b : DateTime) : Int :=
  (b.year - a.year) * 12 + (b.month - a.month)

/-- The OMIT arm of the MONTHLY leap-day advance: re-advance from the
source pivot by successive multiples of the interval until the month-count
difference is a multiple of the interval.  The Go `for` loop is translated
with explicit fuel; 48 iterations cover every reachable input (a Feb 29
anchor recurs within 8 years, a day-30/31 anchor within 12 months). -/
def monthlyOmitLoop (ret : DateTime) (interval : Int) :
    Nat → Int → Int → DateTime → DateTime
  | 0, _, _, cur => cur
  | fuel + 1, mult, diff, cur =>
      if diff.tmod interval ≠ 0 then
        let mult2 := mult + 1
        let cur2 := addDate ret 0 (interval * mult2) 0
        monthlyOmitLoop ret interval fuel mult2 (monthDiff ret cur2) cur2
      else cur

/-- The MONTHLY advance from `setMonthly`: add the interval in months; when
the anchor day is ≥ 29 and the month-count difference is not a multiple of
the interval, resolve the skipped month per the invalid-date policy. -/
def monthlyNext (checkLeapDay : Bool) (ib : InvalidBehavior) (interval : Int)
    (cur : DateTime) : DateTime :=
  let ret := cur
  let c2 := addDate cur 0 interval 0
  if checkLeapDay then
    let diff := monthDiff ret c2
    if diff.tmod interval ≠ 0 then
      match ib with
      | .PrevInvalid => addDate c2 0 0 (-1)
      | .NextInvalid => c2
      | .OmitInvalid => monthlyOmitLoop ret interval 48 1 diff c2
    else c2
  else c2

/-- Driver `setMonthly` from `rrule.go`. -/
def setMonthly (r : RRule) (now : DateTime) : iterator :=
  let start := startOf r now
  let interval := intervalOf r
  let checkLeapDay := start.day ≥ 29
  { minTime := start
    maxTime := timeOrMax r.Until
    queueCap := r.Count
    setpos := r.BySetPos
    startState := ⟨start, 0, false⟩
    next := stepState (monthlyNext checkLeapDay r.InvalidBehavior interval)
    valid := fun t =>
      if r.ByMonthDays ≠ [] then
        validMonth r.ByMonths t && validWeekday r.ByWeekdays t
      else validMonth r.ByMonths t
    variations := fun t =>
      let tt := expandByHours (expandByMinutes (expandBySeconds [t] r.BySeconds)
        r.ByMinutes) r.ByHours
      if r.ByMonthDays ≠ [] then
        expandByMonthDays tt r.InvalidBehavior r.ByMonthDays
      else if r.ByWeekdays ≠ [] then
        expandMonthByWeekdays tt r.InvalidBehavior r.BySetPos r.ByWeekdays
      else tt }

/-- Driver `setYearly` from `rrule.go`, including the note-2 branching of the
weekday expansion. -/
def setYearly (r : RRule) (now : DateTime) : iterator :=
  let start := startOf r now
  let interval := intervalOf r
  let plainByDay := plainWeekdays r.ByWeekdays
  { minTime := start
    maxTime := timeOrMax r.Until
    queueCap := r.Count
    setpos := r.BySetPos
    startState := ⟨start, 0, false⟩
    next := stepState (fun t => addDate t interval 0 0)
    valid := fun t =>
      if r.ByYearDays ≠ [] ∨ r.ByMonthDays ≠ [] then
        validMonth r.ByMonths t && validWeekday r.ByWeekdays t
      else validMonth r.ByMonths t
    variations := fun t =>
      let tt := expandByHours (expandByMinutes (expandBySeconds [t] r.BySeconds)
        r.ByMinutes) r.ByHours
      let tt := expandByMonthDays tt r.InvalidBehavior r.ByMonthDays
      let tt := expandByYearDays tt r.InvalidBehavior r.ByYearDays
      let tt := expandByMonths tt r.InvalidBehavior r.ByMonths
      let tt :=
        if r.ByYearDays = [] ∧ r.ByMonthDays = [] then
          if r.ByMonths ≠ [] then
            expandMonthByWeekdays tt r.InvalidBehavior [] r.ByWeekdays
          else if r.ByWeekNumbers ≠ [] then
            expandByWeekNumbers tt r.InvalidBehavior r.weekStart plainByDay
              r.ByWeekNumbers
          else
            expandYearByWeekdays tt r.InvalidBehavior r.ByWeekdays
        else tt
      limitBySetPos tt r.BySetPos }

/-- Method `RRule.Iterator`: validate, then dispatch on the frequency.  The Go
method panics on a validation error or an unknown frequency; both are
modelled as `none`. -/
def RRule.Iterator (r : RRule) (now : DateTime) : Option iterator :=
  match r.Validate with
  | some _ => none
  | none =>
      if r.Frequency = Secondly then some (setSecondly r now)
      else if r.Frequency = Minutely then some (setMinutely r now)
      else if r.Frequency = Hourly then some (setHourly r now)
      else if r.Frequency = Daily then some (setDaily r now)
      else if r.Frequency = Weekly then some (setWeekly r now)
      else if r.Frequency = Monthly then some (setMonthly r now)
      else if r.Frequency = Yearly then some (setYearly r now)
      else none

/-! ## The iterator kernel

Modelled from the spec (§4.3): pull a pivot from the driver, stop when it
passes the upper bound, expand it, filter through the combined limiters,
sort and deduplicate, drop candidates before the anchor or past `until`,
and emit, stopping once `Count` instants have been produced.  (BYSETPOS is
applied inside each driver's `variations`, as the driver table and the
repository's tests fix it; the kernel itself applies no positional
selection.)  The loop takes explicit fuel; `StopReason` records why the
run ended. -/

inductive StopReason
  | byCount
  | byBound
  | byFuel
deriving DecidableEq, Repr

/-- One pivot's contribution: expand, filter, sort, deduplicate, and apply
the anchor lower bound and the `until` upper bound. -/
def processBatch (it : iterator) (pivot : DateTime) : List DateTime :=
  (sortDedupT ((it.variations pivot).filter it.valid)).filter
    (fun t => !dtLtb t it.minTime && !dtLtb it.maxTime t)

/-- Modelled from the spec: the kernel loop. -/
def runIterAux (it : iterator) :
    Nat → NextState → List DateTime → List DateTime × StopReason
  | 0, _, acc => (acc, .byFuel)
  | fuel + 1, st, acc =>
      let p := it.next st
      if dtLtb it.maxTime p.1 then (acc, .byBound)
      else
        let batch := processBatch it p.1
        if it.queueCap ≠ 0 ∧ it.queueCap ≤ acc.length + batch.length then
          (acc ++ batch.take (it.queueCap - acc.length), .byCount)
        else runIterAux it fuel p.2 (acc ++ batch)

/-- Run an iterator to termination (or fuel exhaustion). -/
def runIter (it : iterator) (fuel : Nat) : List DateTime × StopReason :=
  runIterAux it fuel it.startState []

/-! ## Kernel lemmas: the count cap -/

theorem runIterAux_cap (it : iterator) (hcap : it.queueCap ≠ 0) :
    ∀ (fuel : Nat) (st : NextState) (acc : List DateTime),
      acc.length ≤ it.queueCap →
      (runIterAux it fuel st acc).1.length ≤ it.queueCap ∧
      ((runIterAux it fuel st acc).2 = .byCount →
        (runIterAux it fuel st acc).1.length = it.queueCap) := by
  intro fuel
  induction fuel with
  | zero =>
      intro st acc hacc
      refine ⟨hacc, ?_⟩
      intro h
      simp [runIterAux] at h
  | succ n ih =>
      intro st acc hacc
      rw [runIterAux]
      split
      · exact ⟨hacc, by intro h; simp at h⟩
      · dsimp only
        split
        · rename_i hcond
          constructor
          · simp only [List.length_append, List.length_take]
            omega
          · intro _
            simp only [List.length_append, List.length_take]
            omega
        · rename_i hcond
          have hlt : acc.length + (processBatch it (it.next st).1).length < it.queueCap := by
            rcases Nat.lt_or_ge (acc.length + (processBatch it (it.next st).1).length)
              it.queueCap with h | h
            · exact h
            · exact absurd ⟨hcap, h⟩ hcond
          exact ih (it.next st).2 (acc ++ processBatch it (it.next st).1)
            (by simp only [List.length_append]; omega)

/-! ## Driver construction facts -/

theorem setSecondly_spec (r : RRule) (now : DateTime) :
    (setSecondly r now).queueCap = r.Count ∧
    (setSecondly r now).minTime = startOf r now ∧
    (setSecondly r now).startState.cur = startOf r now := by
  unfold setSecondly
  dsimp only
  split <;> exact ⟨rfl, rfl, rfl⟩

theorem Iterator_spec (r : RRule) (now : DateTime) (it : iterator)
    (h : r.Iterator now = some it) :
    it.queueCap = r.Count ∧ it.minTime = startOf r now ∧
    it.startState.cur = startOf r now := by
  unfold RRule.Iterator at h
  rcases hv : r.Validate with _ | e <;> rw [hv] at h
  · dsimp only at h
    split at h
    · cases h; exact setSecondly_spec r now
    · split at h
      · cases h; exact ⟨rfl, rfl, rfl⟩
      · split at h
        · cases h; exact ⟨rfl, rfl, rfl⟩
        · split at h
          · cases h; exact ⟨rfl, rfl, rfl⟩
          · split at h
            · cases h; exact ⟨rfl, rfl, rfl⟩
            · split at h
              · cases h; exact ⟨rfl, rfl, rfl⟩
              · split at h
                · cases h; exact ⟨rfl, rfl, rfl⟩
                · exact absurd h (by simp)
  · exact absurd h (by simp)

theorem Iterator_isSome (r : RRule) (now : DateTime)
    (hv : r.Validate = none)
    (hf : r.Frequency = Secondly ∨ r.Frequency = Minutely ∨ r.Frequency = Hourly ∨
      r.Frequency = Daily ∨ r.Frequency = Weekly ∨ r.Frequency = Monthly ∨
      r.Frequency = Yearly) :
    ∃ it, r.Iterator now = some it := by
  unfold RRule.Iterator
  rw [hv]
  dsimp only
  rcases hf with h | h | h | h | h | h | h
  · exact ⟨setSecondly r now, by
      simp [h, Secondly, Minutely, Hourly, Daily, Weekly, Monthly, Yearly]⟩
  · exact ⟨setMinutely r now, by
      simp [h, Secondly, Minutely, Hourly, Daily, Weekly, Monthly, Yearly]⟩
  · exact ⟨setHourly r now, by
      simp [h, Secondly, Minutely, Hourly, Daily, Weekly, Monthly, Yearly]⟩
  · exact ⟨setDaily r now, by
      simp [h, Secondly, Minutely, Hourly, Daily, Weekly, Monthly, Yearly]⟩
  · exact ⟨setWeekly r now, by
      simp [h, Secondly, Minutely, Hourly, Daily, Weekly, Monthly, Yearly]⟩
  · exact ⟨setMonthly r now, by
      simp [h, Secondly, Minutely, Hourly, Daily, Weekly, Monthly, Yearly]⟩
  · exact ⟨setYearly r now, by
      simp [h, Secondly, Minutely, Hourly, Daily, Weekly, Monthly, Yearly]⟩

/-! ## Claim theorems -/

/-- C2: for every valid pattern with `Count` set, the kernel never emits
more than `Count` instants, and whenever the run terminates by the count cap
(rather than by the `until` bound, the representable horizon, or fuel) it
emits exactly `Count` instants. -/
theorem count_cap_exact (r : RRule) (now : DateTime) (it : iterator)
    (fuel : Nat) (h : r.Iterator now = some it) (hc : r.Count ≠ 0) :
    (runIter it fuel).1.length ≤ r.Count ∧
    ((runIter it fuel).2 = .byCount → (runIter it fuel).1.length = r.Count) := by
  have hq := (Iterator_spec r now it h).1
  have hmain := runIterAux_cap it (by rw [hq]; exact hc) fuel it.startState []
    (by simp)
  rw [runIter, ← hq]
  exact hmain

/-- Witness for C2: the "simple secondly" pattern with COUNT=3 emits exactly
3 instants and stops by the count cap. -/
theorem count_cap_exact_witness :
    (runIter (setSecondly { defaultRRule with
      Frequency := Secondly, Count := 3, Dtstart := ⟨2018, 8, 25, 9, 8, 7⟩ }
      ⟨2018, 8, 25, 9, 8, 7⟩) 10).1.length ≤ 3 ∧
    ((runIter (setSecondly { defaultRRule with
      Frequency := Secondly, Count := 3, Dtstart := ⟨2018, 8, 25, 9, 8, 7⟩ }
      ⟨2018, 8, 25, 9, 8, 7⟩) 10).2 = .byCount →
      (runIter (setSecondly { defaultRRule with
        Frequency := Secondly, Count := 3, Dtstart := ⟨2018, 8, 25, 9, 8, 7⟩ }
        ⟨2018, 8, 25, 9, 8, 7⟩) 10).1.length = 3) :=
  count_cap_exact
    { defaultRRule with Frequency := Secondly, Count := 3, Dtstart := ⟨2018, 8, 25, 9, 8, 7⟩ }
    ⟨2018, 8, 25, 9, 8, 7⟩
    (setSecondly { defaultRRule with
      Frequency := Secondly, Count := 3, Dtstart := ⟨2018, 8, 25, 9, 8, 7⟩ }
      ⟨2018, 8, 25, 9, 8, 7⟩)
    10 rfl (by decide)

/-- C10: a pattern whose `Dtstart` is the zero time still yields an
iterator (no failure); every driver substitutes the current time as the
anchor, so the iterator is seeded from `now`. -/
theorem zero_dtstart_uses_now (r : RRule) (now : DateTime)
    (hz : r.Dtstart = goZeroTime) (hv : r.Validate = none)
    (hf : r.Frequency = Secondly ∨ r.Frequency = Minutely ∨ r.Frequency = Hourly ∨
      r.Frequency = Daily ∨ r.Frequency = Weekly ∨ r.Frequency = Monthly ∨
      r.Frequency = Yearly) :
    ∃ it, r.Iterator now = some it ∧ it.minTime = now ∧ it.startState.cur = now := by
  obtain ⟨it, hit⟩ := Iterator_isSome r now hv hf
  have hs := Iterator_spec r now it hit
  have hstart : startOf r now = now := by rw [startOf, hz]; simp
  exact ⟨it, hit, by rw [hs.2.1, hstart], by rw [hs.2.2, hstart]⟩

/-- Counterexample to **C7** as stated: a pattern carrying out-of-range
values on BYSECOND, BYMINUTE, BYHOUR, BYMONTHDAY, BYYEARDAY, BYWEEKNO and
BYMONTH passes `Validate` without error. -/
theorem validate_range_counterexample :
    RRule.Validate { defaultRRule with
      Frequency := Daily, BySeconds := [99], ByMinutes := [75], ByHours := [30],
      ByMonthDays := [40], ByYearDays := [500], ByWeekNumbers := [60],
      ByMonths := [13] } = none := by decide

/-- C7 (amended): `Validate` range-checks only BYSETPOS — any entry that
is 0 or outside [-366, 366] is rejected — while arbitrary (in particular
out-of-range) values on the seven other numeric axes are accepted. -/
theorem validate_checks_only_setpos :
    (∀ (r : RRule) (sp : Int), sp ∈ r.BySetPos →
      (sp = 0 ∨ sp < -366 ∨ sp > 366) → r.Validate ≠ none) ∧
    (∀ ss mm hh md yd wn mo : List Int,
      RRule.Validate { defaultRRule with
        Frequency := Daily, BySeconds := ss, ByMinutes := mm, ByHours := hh,
        ByMonthDays := md, ByYearDays := yd, ByWeekNumbers := wn,
        ByMonths := mo } = none) := by
  constructor
  · intro r sp hmem hbad
    unfold RRule.Validate
    split
    · simp
    · split
      · simp
      · split
        · simp
        · split
          · simp
          · split
            · simp
            · split
              · simp
              · rename_i hnone
                exfalso
                apply hnone
                rw [List.any_eq_true]
                refine ⟨sp, hmem, ?_⟩
                simp only [Bool.or_eq_true, decide_eq_true_eq]
                omega
  · intro ss mm hh md yd wn mo
    unfold RRule.Validate
    simp [Daily, Yearly, Monthly, Weekly, defaultRRule, goZeroTime]

/-- Witness for the amended C7: BYSETPOS = [400] is rejected,
BYSECOND = [99] alone is accepted. -/
theorem validate_checks_only_setpos_witness :
    (RRule.Validate { defaultRRule with
      Frequency := Daily, ByHours := [1], BySetPos := [400] } ≠ none) ∧
    RRule.Validate { defaultRRule with
      Frequency := Daily, BySeconds := [99], ByMinutes := [], ByHours := [],
      ByMonthDays := [], ByYearDays := [], ByWeekNumbers := [],
      ByMonths := [] } = none :=
  ⟨validate_checks_only_setpos.1
      { defaultRRule with Frequency := Daily, ByHours := [1], BySetPos := [400] }
      400 (by decide) (by decide),
   validate_checks_only_setpos.2 [99] [] [] [] [] [] []⟩

/-- Counterexample to **C8** as stated: `Validate` accepts a pattern whose
frequency is not one of the seven supported constants. -/
theorem validate_unknown_frequency_counterexample :
    RRule.Validate { defaultRRule with Frequency := 42 } = none := by decide

/-- C8 (amended): `Validate` performs no frequency check at all — it
accepts every frequency value on an otherwise-empty pattern — and an
unknown frequency surfaces only when an iterator is requested, where the
dispatch fails (the Go method panics; modelled as `none`). -/
theorem unknown_frequency_fails_at_iterator :
    (∀ f : Int, RRule.Validate { defaultRRule with Frequency := f } = none) ∧
    (∀ (r : RRule) (now : DateTime),
      ¬(r.Frequency = Secondly ∨ r.Frequency = Minutely ∨ r.Frequency = Hourly ∨
        r.Frequency = Daily ∨ r.Frequency = Weekly ∨ r.Frequency = Monthly ∨
        r.Frequency = Yearly) →
      r.Iterator now = none) := by
  constructor
  · intro f
    unfold RRule.Validate
    simp [defaultRRule, goZeroTime]
  · intro r now hf
    push_neg at hf
    obtain ⟨h0, h1, h2, h3, h4, h5, h6⟩ := hf
    unfold RRule.Iterator
    rcases hv : r.Validate with _ | e
    · simp [h0, h1, h2, h3, h4, h5, h6]
    · rfl

/-- Witness for the amended C8 at frequency 42. -/
theorem unknown_frequency_fails_at_iterator_witness :
    RRule.Validate { defaultRRule with Frequency := 42 } = none ∧
    RRule.Iterator { defaultRRule with Frequency := 42 } goZeroTime = none :=
  ⟨unknown_frequency_fails_at_iterator.1 42,
   unknown_frequency_fails_at_iterator.2 { defaultRRule with Frequency := 42 }
     goZeroTime (by decide)⟩

/-! ## Calendar arithmetic lemmas (for the year-day and month claims) -/

theorem fdiv4 (a : Int) : a.fdiv 4 = a / 4 := Int.fdiv_eq_ediv a (by norm_num)
theorem fdiv100 (a : Int) : a.fdiv 100 = a / 100 := Int.fdiv_eq_ediv a (by norm_num)
theorem fdiv400 (a : Int) : a.fdiv 400 = a / 400 := Int.fdiv_eq_ediv a (by norm_num)
theorem fdiv5 (a : Int) : a.fdiv 5 = a / 5 := Int.fdiv_eq_ediv a (by norm_num)

theorem dfc_jan (y d : Int) :
    daysFromCivil y 1 d =
      365 * (y - 1) + (y - 1) / 4 - (y - 1) / 100 + (y - 1) / 400 + 305 + d - 719468 := by
  unfold daysFromCivil
  norm_num
  rw [fdiv400, fdiv4, fdiv100, fdiv5]
  omega

theorem dfc_dec (y d : Int) :
    daysFromCivil y 12 d =
      365 * y + y / 4 - y / 100 + y / 400 + 274 + d - 719468 := by
  unfold daysFromCivil
  norm_num
  rw [fdiv400, fdiv4, fdiv100, fdiv5]
  omega

theorem leap_iff (y : Int) :
    isLeapYear y = false ↔ ¬(4 ∣ y ∧ (¬(100 ∣ y) ∨ 400 ∣ y)) := by
  simp [isLeapYear, Int.dvd_iff_tmod_eq_zero]

theorem yearFactor_step (y : Int) (hy : isLeapYear y = false) :
    365 * y + y / 4 - y / 100 + y / 400 =
    365 * (y - 1) + (y - 1) / 4 - (y - 1) / 100 + (y - 1) / 400 + 365 := by
  rw [leap_iff] at hy
  omega

theorem mk_jan (y d hh mi ss : Int) :
    mkDateTime y 1 d hh mi ss =
      ofSecs (86400 * (daysFromCivil y 1 1 + (d - 1)) + 3600 * hh + 60 * mi + ss) := by
  unfold mkDateTime
  norm_num

theorem mk_dec (y d hh mi ss : Int) :
    mkDateTime y 12 d hh mi ss =
      ofSecs (86400 * (daysFromCivil y 12 1 + (d - 1)) + 3600 * hh + 60 * mi + ss) := by
  unfold mkDateTime
  norm_num
  rw [show Int.fdiv 11 12 = 0 from by decide, show Int.fmod 11 12 = 11 from by decide]
  norm_num

/-- Day 366 of a non-leap year, rolled forward, is January 1 of the next
year (at the same time of day). -/
theorem day366_roll_forward (y hh mi ss : Int) (hy : isLeapYear y = false) :
    mkDateTime y 1 366 hh mi ss = mkDateTime (y + 1) 1 1 hh mi ss := by
  rw [mk_jan, mk_jan]
  congr 1
  rw [dfc_jan, dfc_jan]
  have h := yearFactor_step y hy
  have h2 : y + 1 - 1 = y := by ring
  rw [h2]
  omega

/-- Day 365 of a non-leap year is December 31 of that year. -/
theorem day365_is_dec31 (y hh mi ss : Int) (hy : isLeapYear y = false) :
    mkDateTime y 1 365 hh mi ss = mkDateTime y 12 31 hh mi ss := by
  rw [mk_jan, mk_dec]
  congr 1
  rw [dfc_jan, dfc_dec]
  have h := yearFactor_step y hy
  omega

/-- C5: a BYYEARDAY value of 366 falling in a non-leap year is resolved
by the invalid-date policy — OMIT drops the candidate, ROLL_FORWARD yields
January 1 of the following year, ROLL_BACKWARD yields December 31 of the
same year — and `FREQ=YEARLY;COUNT=5;BYYEARDAY=366` anchored at
2016-12-31T00:00:00Z emits December 31 of 2016, 2020, 2024, 2028, 2032
under the default OMIT policy. -/
theorem yearday366_policy :
    (∀ t : DateTime, isLeapYear t.year = false →
      resolveYearDay .OmitInvalid t 366 = none ∧
      resolveYearDay .NextInvalid t 366 =
        some (mkDateTime (t.year + 1) 1 1 t.hour t.minute t.second) ∧
      resolveYearDay .PrevInvalid t 366 =
        some (mkDateTime t.year 12 31 t.hour t.minute t.second)) ∧
    runIter (setYearly { defaultRRule with
        Frequency := Yearly, Count := 5, ByYearDays := [366],
        Dtstart := ⟨2016, 12, 31, 0, 0, 0⟩ } goZeroTime) 20 =
      ([⟨2016, 12, 31, 0, 0, 0⟩, ⟨2020, 12, 31, 0, 0, 0⟩, ⟨2024, 12, 31, 0, 0, 0⟩,
        ⟨2028, 12, 31, 0, 0, 0⟩, ⟨2032, 12, 31, 0, 0, 0⟩], .byCount) := by
  constructor
  · intro t hy
    have hlen : yearLength t.year = 365 := by rw [yearLength, hy]; simp
    refine ⟨?_, ?_, ?_⟩
    · rw [resolveYearDay]
      simp only [hlen]
      norm_num
    · rw [resolveYearDay]
      simp only [hlen]
      norm_num
      exact day366_roll_forward t.year t.hour t.minute t.second hy
    · rw [resolveYearDay]
      simp only [hlen]
      norm_num
      exact day365_is_dec31 t.year t.hour t.minute t.second hy
  · decide

/-- Witness for C5's general part at 2017 (non-leap). -/
theorem yearday366_policy_witness :
    resolveYearDay .OmitInvalid ⟨2017, 12, 31, 0, 0, 0⟩ 366 = none ∧
    resolveYearDay .NextInvalid ⟨2017, 12, 31, 0, 0, 0⟩ 366 =
      some (mkDateTime 2018 1 1 0 0 0) ∧
    resolveYearDay .PrevInvalid ⟨2017, 12, 31, 0, 0, 0⟩ 366 =
      some (mkDateTime 2017 12 31 0 0 0) :=
  yearday366_policy.1 ⟨2017, 12, 31, 0, 0, 0⟩ (by decide)

/-- The MONTHLY OMIT re-advance loop always lands on a whole multiple of
the interval from the source pivot, and the month-count difference of the
result is a multiple of the interval unless the fuel ran out. -/
theorem monthlyOmitLoop_spec (ret : DateTime) (interval : Int) :
    ∀ (fuel : Nat) (mult diff : Int) (cur : DateTime),
      cur = addDate ret 0 (interval * mult) 0 →
      diff = monthDiff ret cur →
      ∃ m2 : Int, mult ≤ m2 ∧
        monthlyOmitLoop ret interval fuel mult diff cur =
          addDate ret 0 (interval * m2) 0 ∧
        ((monthDiff ret (addDate ret 0 (interval * m2) 0)).tmod interval = 0 ∨
          m2 = mult + fuel) := by
  intro fuel
  induction fuel with
  | zero =>
      intro mult diff cur hc hd
      exact ⟨mult, le_refl _, by rw [monthlyOmitLoop, hc], Or.inr (by ring)⟩
  | succ n ih =>
      intro mult diff cur hc hd
      rw [monthlyOmitLoop]
      split
      · obtain ⟨m2, hm1, hm2, hm3⟩ := ih (mult + 1) _ _ rfl rfl
        refine ⟨m2, by omega, hm2, ?_⟩
        rcases hm3 with h | h
        · exact Or.inl h
        · exact Or.inr (by omega)
      · rename_i hzero
        push_neg at hzero
        exact ⟨mult, le_refl _, by rw [hc],
          Or.inl (by rw [← hc, ← hd]; exact hzero)⟩

/-- C3: the MONTHLY advance with an anchor day ≥ 29 computes the
month-count difference between the source pivot and the naïve
+interval-months result; when it is not a multiple of the interval,
ROLL_BACKWARD subtracts one day from the naïve result, ROLL_FORWARD keeps
it, and OMIT re-advances from the source pivot by successive multiples of
the interval; when the difference is a multiple of the interval the naïve
result stands.  `FREQ=MONTHLY;COUNT=4;INTERVAL=6;SKIP=BACKWARD` anchored at
2019-08-29T00:00:00Z emits 2019-08-29, 2020-02-29, 2020-08-29, 2021-02-28. -/
theorem monthly_advance_policy :
    (∀ (interval : Int) (cur : DateTime),
      (monthDiff cur (addDate cur 0 interval 0)).tmod interval ≠ 0 →
        monthlyNext true .PrevInvalid interval cur =
          addDate (addDate cur 0 interval 0) 0 0 (-1) ∧
        monthlyNext true .NextInvalid interval cur = addDate cur 0 interval 0 ∧
        (∃ m2 : Int, 1 ≤ m2 ∧
          monthlyNext true .OmitInvalid interval cur =
            addDate cur 0 (interval * m2) 0 ∧
          ((monthDiff cur (addDate cur 0 (interval * m2) 0)).tmod interval = 0 ∨
            m2 = 49))) ∧
    (∀ (interval : Int) (cur : DateTime),
      (monthDiff cur (addDate cur 0 interval 0)).tmod interval = 0 →
        ∀ ib, monthlyNext true ib interval cur = addDate cur 0 interval 0) ∧
    runIter (setMonthly { defaultRRule with
        Frequency := Monthly, Count := 4, Interval := 6,
        Dtstart := ⟨2019, 8, 29, 0, 0, 0⟩,
        InvalidBehavior := .PrevInvalid } goZeroTime) 20 =
      ([⟨2019, 8, 29, 0, 0, 0⟩, ⟨2020, 2, 29, 0, 0, 0⟩, ⟨2020, 8, 29, 0, 0, 0⟩,
        ⟨2021, 2, 28, 0, 0, 0⟩], .byCount) := by
  refine ⟨?_, ?_, by decide⟩
  · intro interval cur hne
    refine ⟨?_, ?_, ?_⟩
    · simp [monthlyNext, hne]
    · simp [monthlyNext, hne]
    · simp only [monthlyNext, hne, if_pos trivial, ne_eq, not_false_eq_true, if_true]
      obtain ⟨m2, hm1, hm2, hm3⟩ := monthlyOmitLoop_spec cur interval 48 1
        (monthDiff cur (addDate cur 0 interval 0)) (addDate cur 0 interval 0)
        (by rw [Int.mul_one]) rfl
      refine ⟨m2, hm1, hm2, ?_⟩
      rcases hm3 with h | h
      · exact Or.inl h
      · exact Or.inr (by omega)
  · intro interval cur heq ib
    simp [monthlyNext, heq]

/-- Witness for C3's general parts at interval 6 around the 2021 leap skip
(difference 7) and the clean 2019→2020 advance (difference 6). -/
theorem monthly_advance_policy_witness :
    (monthlyNext true .PrevInvalid 6 ⟨2020, 8, 29, 0, 0, 0⟩ =
        addDate (addDate ⟨2020, 8, 29, 0, 0, 0⟩ 0 6 0) 0 0 (-1) ∧
      monthlyNext true .NextInvalid 6 ⟨2020, 8, 29, 0, 0, 0⟩ =
        addDate ⟨2020, 8, 29, 0, 0, 0⟩ 0 6 0 ∧
      (∃ m2 : Int, 1 ≤ m2 ∧
        monthlyNext true .OmitInvalid 6 ⟨2020, 8, 29, 0, 0, 0⟩ =
          addDate ⟨2020, 8, 29, 0, 0, 0⟩ 0 (6 * m2) 0 ∧
        ((monthDiff ⟨2020, 8, 29, 0, 0, 0⟩
            (addDate ⟨2020, 8, 29, 0, 0, 0⟩ 0 (6 * m2) 0)).tmod 6 = 0 ∨
          m2 = 49))) ∧
    monthlyNext true .PrevInvalid 6 ⟨2019, 8, 29, 0, 0, 0⟩ =
      addDate ⟨2019, 8, 29, 0, 0, 0⟩ 0 6 0 :=
  ⟨monthly_advance_policy.1 6 ⟨2020, 8, 29, 0, 0, 0⟩ (by decide),
   monthly_advance_policy.2.1 6 ⟨2019, 8, 29, 0, 0, 0⟩ (by decide) .PrevInvalid⟩

/-! ## Membership helpers for batches -/

theorem mem_dedupSorted : ∀ (l : List DateTime) (t : DateTime),
    t ∈ dedupSorted l → t ∈ l
  | [], t, h => by simp [dedupSorted] at h
  | [u], t, h => by simpa [dedupSorted] using h
  | u :: v :: rest, t, h => by
      rw [dedupSorted] at h
      split at h
      · exact List.mem_cons_of_mem u (mem_dedupSorted (v :: rest) t h)
      · rcases List.mem_cons.1 h with h1 | h1
        · exact h1 ▸ List.mem_cons_self u _
        · exact List.mem_cons_of_mem u (mem_dedupSorted (v :: rest) t h1)

theorem mem_sortDedupT {l : List DateTime} {t : DateTime}
    (h : t ∈ sortDedupT l) : t ∈ l :=
  (List.perm_insertionSort timeRel l).mem_iff.1 (mem_dedupSorted _ t h)

/-- Any candidate surviving a pivot's batch passed the driver's limiter. -/
theorem processBatch_valid (it : iterator) (pivot t : DateTime)
    (h : t ∈ processBatch it pivot) : it.valid t = true := by
  rw [processBatch] at h
  have h1 := (List.mem_filter.1 h).1
  exact (List.mem_filter.1 (mem_sortDedupT h1)).2

/-- The yearly candidate pipeline before the weekday/week-number branch:
seconds, minutes, hours, month-days, year-days, months. -/
def yearlyBase (r : RRule) (t : DateTime) : List DateTime :=
  expandByMonths
    (expandByYearDays
      (expandByMonthDays
        (expandByHours (expandByMinutes (expandBySeconds [t] r.BySeconds)
          r.ByMinutes) r.ByHours)
        r.InvalidBehavior r.ByMonthDays)
      r.InvalidBehavior r.ByYearDays)
    r.InvalidBehavior r.ByMonths

/-- C4: in the YEARLY driver, when neither BYYEARDAY nor BYMONTHDAY is
present, weekdays are expanded within each month if BYMONTH is present,
else within each ISO week if BYWEEKNO is present, else within the year;
when BYYEARDAY or BYMONTHDAY is present the weekday expansion is skipped
entirely — the batch does not depend on BYDAY — and BYDAY acts only as a
limiter on candidates. -/
theorem yearly_weekday_branching (r : RRule) (now t : DateTime) :
    (r.ByYearDays = [] → r.ByMonthDays = [] → r.ByMonths ≠ [] →
      (setYearly r now).variations t =
        limitBySetPos (expandMonthByWeekdays (yearlyBase r t) r.InvalidBehavior
          [] r.ByWeekdays) r.BySetPos) ∧
    (r.ByYearDays = [] → r.ByMonthDays = [] → r.ByMonths = [] →
      r.ByWeekNumbers ≠ [] →
      (setYearly r now).variations t =
        limitBySetPos (expandByWeekNumbers (yearlyBase r t) r.InvalidBehavior
          r.weekStart (plainWeekdays r.ByWeekdays) r.ByWeekNumbers) r.BySetPos) ∧
    (r.ByYearDays = [] → r.ByMonthDays = [] → r.ByMonths = [] →
      r.ByWeekNumbers = [] →
      (setYearly r now).variations t =
        limitBySetPos (expandYearByWeekdays (yearlyBase r t) r.InvalidBehavior
          r.ByWeekdays) r.BySetPos) ∧
    ((r.ByYearDays ≠ [] ∨ r.ByMonthDays ≠ []) →
      ((setYearly r now).variations t = limitBySetPos (yearlyBase r t) r.BySetPos) ∧
      (∀ wds, (setYearly { r with ByWeekdays := wds } now).variations t =
        limitBySetPos (yearlyBase r t) r.BySetPos) ∧
      ((setYearly r now).valid t =
        (validMonth r.ByMonths t && validWeekday r.ByWeekdays t)) ∧
      (∀ pivot, t ∈ processBatch (setYearly r now) pivot →
        validWeekday r.ByWeekdays t = true)) := by
  refine ⟨?_, ?_, ?_, ?_⟩
  · intro h1 h2 h3
    simp [setYearly, yearlyBase, h1, h2, h3]
  · intro h1 h2 h3 h4
    simp [setYearly, yearlyBase, h1, h2, h3, h4]
  · intro h1 h2 h3 h4
    simp [setYearly, yearlyBase, h1, h2, h3, h4]
  · intro hy
    have hno : ¬(r.ByYearDays = [] ∧ r.ByMonthDays = []) := by tauto
    refine ⟨?_, ?_, ?_, ?_⟩
    · simp only [setYearly]
      rw [if_neg hno, yearlyBase]
    · intro wds
      simp only [setYearly]
      rw [if_neg hno, yearlyBase]
    · simp only [setYearly]
      rw [if_pos hy]
    · intro pivot hmem
      have hv := processBatch_valid _ _ _ hmem
      simp only [setYearly] at hv
      rw [if_pos hy] at hv
      exact ((Bool.and_eq_true _ _).mp hv).2

/-- A yearly pattern with BYMONTH and BYDAY (month-scope branch). -/
def rC4a : RRule :=
  { defaultRRule with
    Frequency := Yearly, ByMonths := [8, 9], ByWeekdays := [⟨0, 2⟩] }

/-- A yearly pattern with BYWEEKNO and BYDAY (week-scope branch). -/
def rC4b : RRule :=
  { defaultRRule with
    Frequency := Yearly, ByWeekNumbers := [20], ByWeekdays := [⟨0, 1⟩] }

/-- A yearly pattern with BYDAY alone (year-scope branch). -/
def rC4c : RRule :=
  { defaultRRule with Frequency := Yearly, ByWeekdays := [⟨0, 2⟩] }

/-- A yearly pattern with BYYEARDAY and BYDAY (limiter-only branch). -/
def rC4d : RRule :=
  { defaultRRule with
    Frequency := Yearly, ByYearDays := [366], ByWeekdays := [⟨0, 2⟩] }

/-- Witness for C4: the four branches at four concrete yearly patterns. -/
theorem yearly_weekday_branching_witness :
    ((setYearly rC4a goZeroTime).variations ⟨2018, 8, 25, 9, 8, 7⟩ =
      limitBySetPos (expandMonthByWeekdays (yearlyBase rC4a ⟨2018, 8, 25, 9, 8, 7⟩)
        .OmitInvalid [] [⟨0, 2⟩]) []) ∧
    ((setYearly rC4b goZeroTime).variations ⟨2018, 8, 25, 9, 8, 7⟩ =
      limitBySetPos (expandByWeekNumbers (yearlyBase rC4b ⟨2018, 8, 25, 9, 8, 7⟩)
        .OmitInvalid Monday [1] [20]) []) ∧
    ((setYearly rC4c goZeroTime).variations ⟨2018, 8, 25, 9, 8, 7⟩ =
      limitBySetPos (expandYearByWeekdays (yearlyBase rC4c ⟨2018, 8, 25, 9, 8, 7⟩)
        .OmitInvalid [⟨0, 2⟩]) []) ∧
    ((setYearly rC4d goZeroTime).variations ⟨2018, 8, 25, 9, 8, 7⟩ =
      limitBySetPos (yearlyBase rC4d ⟨2018, 8, 25, 9, 8, 7⟩) []) :=
  ⟨(yearly_weekday_branching rC4a goZeroTime _).1 rfl rfl (by decide),
   (yearly_weekday_branching rC4b goZeroTime _).2.1 rfl rfl rfl (by decide),
   (yearly_weekday_branching rC4c goZeroTime _).2.2.1 rfl rfl rfl rfl,
   ((yearly_weekday_branching rC4d goZeroTime _).2.2.2 (Or.inl (by decide))).1⟩

/-! ## Batch-normal-form and BYSETPOS lemmas -/

instance : IsTotal DateTime timeRel :=
  ⟨fun a b => Int.le_total (toSecs a) (toSecs b)⟩

instance : IsTrans DateTime timeRel :=
  ⟨fun _ _ _ h1 h2 => Int.le_trans h1 h2⟩

theorem head_dedupSorted : ∀ (u : DateTime) (rest : List DateTime),
    (dedupSorted (u :: rest)).head? = some u
  | _, [] => rfl
  | u, v :: rest => by
      rw [dedupSorted]
      split
      · rename_i he
        rw [he]
        exact head_dedupSorted v rest
      · rfl

theorem sorted_dedupSorted : ∀ l : List DateTime,
    l.Sorted timeRel → (dedupSorted l).Sorted timeRel
  | [] => fun _ => List.sorted_nil
  | [t] => fun _ => List.sorted_singleton t
  | t :: u :: rest => fun h => by
      have hrec := sorted_dedupSorted (u :: rest) (List.sorted_cons.1 h).2
      rw [dedupSorted]
      split
      · exact hrec
      · rw [List.sorted_cons]
        refine ⟨fun b hb => ?_, hrec⟩
        exact (List.sorted_cons.1 h).1 b (mem_dedupSorted (u :: rest) b hb)

theorem chain_ne_dedupSorted : ∀ l : List DateTime,
    List.Chain' (fun a b => a ≠ b) (dedupSorted l)
  | [] => List.chain'_nil
  | [_] => List.chain'_singleton _
  | t :: u :: rest => by
      have hrec := chain_ne_dedupSorted (u :: rest)
      rw [dedupSorted]
      split
      · exact hrec
      · rename_i hne
        rw [List.chain'_cons']
        refine ⟨fun y hy => ?_, hrec⟩
        rw [head_dedupSorted u rest] at hy
        cases hy
        exact hne

theorem sorted_sortDedupT (ts : List DateTime) :
    (sortDedupT ts).Sorted timeRel :=
  sorted_dedupSorted _ (List.sorted_insertionSort timeRel ts)

/-- The yearly expansion pipeline of `setYearly` before its final BYSETPOS
selection: seconds, minutes, hours, month-days, year-days, months, then the
note-2 weekday branch. -/
def yearlyExpanded (r : RRule) (t : DateTime) : List DateTime :=
  let tt := expandByHours (expandByMinutes (expandBySeconds [t] r.BySeconds)
    r.ByMinutes) r.ByHours
  let tt := expandByMonthDays tt r.InvalidBehavior r.ByMonthDays
  let tt := expandByYearDays tt r.InvalidBehavior r.ByYearDays
  let tt := expandByMonths tt r.InvalidBehavior r.ByMonths
  if r.ByYearDays = [] ∧ r.ByMonthDays = [] then
    if r.ByMonths ≠ [] then
      expandMonthByWeekdays tt r.InvalidBehavior [] r.ByWeekdays
    else if r.ByWeekNumbers ≠ [] then
      expandByWeekNumbers tt r.InvalidBehavior r.weekStart
        (plainWeekdays r.ByWeekdays) r.ByWeekNumbers
    else
      expandYearByWeekdays tt r.InvalidBehavior r.ByWeekdays
  else tt

/-- A valid WEEKLY pattern with BYHOUR, BYDAY and BYSETPOS, whose driver
applies the positional selection before the weekday expansion. -/
def rC6w : RRule :=
  { defaultRRule with
    Frequency := Weekly, ByHours := [1, 2], ByWeekdays := [⟨0, 1⟩, ⟨0, 2⟩],
    BySetPos := [1], Dtstart := ⟨2018, 8, 25, 9, 8, 7⟩ }

/-- The fully expanded, sorted, deduplicated candidate batch of `rC6w`'s
first pivot (hours then weekdays, all expanders applied). -/
def fullWeeklyBatch : List DateTime :=
  sortDedupT (expandByWeekdays
    (expandByHours (expandByMinutes (expandBySeconds [⟨2018, 8, 25, 9, 8, 7⟩]
      rC6w.BySeconds) rC6w.ByMinutes) rC6w.ByHours) Monday rC6w.ByWeekdays)

/-- A valid MONTHLY pattern with BYMONTHDAY and BYSETPOS, whose driver
never applies the positional selection. -/
def rC6m : RRule :=
  { defaultRRule with
    Frequency := Monthly, ByMonthDays := [1, 2], BySetPos := [1],
    Dtstart := ⟨2018, 8, 25, 9, 8, 7⟩ }

/-- A valid MONTHLY pattern with BYDAY and BYSETPOS (selection applied
inside the month-scoped weekday expansion). -/
def rC6d : RRule :=
  { defaultRRule with
    Frequency := Monthly, ByWeekdays := [⟨0, 2⟩], BySetPos := [1],
    Dtstart := ⟨2018, 8, 25, 9, 8, 7⟩ }

/-- Counterexample to C6 as stated: BYSETPOS is not applied to the fully
expanded batch for every pattern.  For the valid WEEKLY pattern `rC6w` the
driver selects before the weekday expansion, so its batch has two instants
where selection on the fully expanded sorted batch would keep one; and for
the valid MONTHLY BYMONTHDAY pattern `rC6m` no selection happens at all. -/
theorem setpos_application_counterexample :
    RRule.Validate rC6w = none ∧
    (setWeekly rC6w goZeroTime).variations ⟨2018, 8, 25, 9, 8, 7⟩ =
      [⟨2018, 8, 20, 1, 8, 7⟩, ⟨2018, 8, 21, 1, 8, 7⟩] ∧
    limitBySetPos fullWeeklyBatch rC6w.BySetPos = [⟨2018, 8, 20, 1, 8, 7⟩] ∧
    (setWeekly rC6w goZeroTime).variations ⟨2018, 8, 25, 9, 8, 7⟩ ≠
      limitBySetPos fullWeeklyBatch rC6w.BySetPos ∧
    RRule.Validate rC6m = none ∧
    (setMonthly rC6m goZeroTime).variations ⟨2018, 8, 25, 9, 8, 7⟩ =
      [⟨2018, 8, 1, 9, 8, 7⟩, ⟨2018, 8, 2, 9, 8, 7⟩] ∧
    (setMonthly rC6m goZeroTime).variations ⟨2018, 8, 25, 9, 8, 7⟩ ≠
      limitBySetPos ((setMonthly rC6m goZeroTime).variations
        ⟨2018, 8, 25, 9, 8, 7⟩) rC6m.BySetPos :=
  ⟨by decide, by decide, by decide, by decide, by decide, by decide, by decide⟩

/-- C6 (amended): BYSETPOS selection is an order-preserving sublist keyed
by 1-based positions into the batch (negatives count from the end,
positions beyond the batch are ignored), and the batch normal form is
sorted ascending with no adjacent duplicates; but the selection is applied
where each driver's pipeline places it rather than uniformly to the fully
expanded batch: MINUTELY, HOURLY and DAILY select after all their
expanders, YEARLY selects last after its full expansion, WEEKLY selects
before its weekday expansion, MONTHLY selects only inside its BYDAY
expansion and not at all in its BYMONTHDAY branch, and SECONDLY never
applies it to the batch. -/
theorem setpos_semantics_and_sites :
    (∀ (ts : List DateTime) (poss : List Int),
      (limitBySetPos ts poss).Sublist ts) ∧
    (∀ (ts : List DateTime) (poss : List Int) (i : Nat) (h : i < ts.length),
      ((i : Int) + 1 ∈ poss ∨ (i : Int) - (ts.length : Int) ∈ poss) →
      ts.get ⟨i, h⟩ ∈ limitBySetPos ts poss) ∧
    (∀ (ts : List DateTime) (poss : List Int), poss ≠ [] →
      ∀ u ∈ limitBySetPos ts poss,
        ∃ (i : Nat) (h : i < ts.length), u = ts.get ⟨i, h⟩ ∧
          ((i : Int) + 1 ∈ poss ∨ (i : Int) - (ts.length : Int) ∈ poss)) ∧
    (∀ (ts : List DateTime) (poss : List Int),
      poss.filter (fun sp => sp.natAbs ≤ ts.length) ≠ [] →
      limitBySetPos ts (poss.filter (fun sp => sp.natAbs ≤ ts.length)) =
        limitBySetPos ts poss) ∧
    (∀ ts : List DateTime,
      (sortDedupT ts).Sorted timeRel ∧
      List.Chain' (fun a b => a ≠ b) (sortDedupT ts)) ∧
    (∀ (r : RRule) (now t : DateTime),
      (setSecondly r now).variations t = [t]) ∧
    (∀ (r : RRule) (now t : DateTime),
      (setMinutely r now).variations t =
        limitBySetPos (expandBySeconds [t] r.BySeconds) r.BySetPos) ∧
    (∀ (r : RRule) (now t : DateTime),
      (setHourly r now).variations t =
        limitBySetPos (expandBySeconds (expandByMinutes [t] r.ByMinutes)
          r.BySeconds) r.BySetPos) ∧
    (∀ (r : RRule) (now t : DateTime),
      (setDaily r now).variations t =
        limitBySetPos (expandByHours (expandByMinutes (expandBySeconds [t]
          r.BySeconds) r.ByMinutes) r.ByHours) r.BySetPos) ∧
    (∀ (r : RRule) (now t : DateTime),
      (setWeekly r now).variations t =
        expandByWeekdays
          (limitBySetPos (expandByHours (expandByMinutes (expandBySeconds [t]
            r.BySeconds) r.ByMinutes) r.ByHours) r.BySetPos)
          r.weekStart r.ByWeekdays) ∧
    (∀ (r : RRule) (now t : DateTime),
      (setYearly r now).variations t =
        limitBySetPos (yearlyExpanded r t) r.BySetPos) ∧
    (∀ (r : RRule) (now t : DateTime), r.ByMonthDays ≠ [] →
      ((setMonthly r now).variations t =
        expandByMonthDays (expandByHours (expandByMinutes (expandBySeconds [t]
          r.BySeconds) r.ByMinutes) r.ByHours) r.InvalidBehavior
          r.ByMonthDays) ∧
      ∀ poss : List Int,
        (setMonthly { r with BySetPos := poss } now).variations t =
          (setMonthly r now).variations t) ∧
    (∀ (r : RRule) (now t : DateTime), r.ByMonthDays = [] → r.ByWeekdays ≠ [] →
      (setMonthly r now).variations t =
        expandMonthByWeekdays (expandByHours (expandByMinutes (expandBySeconds
          [t] r.BySeconds) r.ByMinutes) r.ByHours) r.InvalidBehavior
          r.BySetPos r.ByWeekdays) := by
  refine ⟨?_, ?_, ?_, ?_, ?_, ?_, ?_, ?_, ?_, ?_, ?_, ?_, ?_⟩
  · intro ts poss
    rw [limitBySetPos]
    split
    · exact List.Sublist.refl ts
    · have h1 : (ts.enum.filter (fun p =>
          poss.any (fun sp => sp = (p.1 : Int) + 1 ∨
            sp = (p.1 : Int) - (ts.length : Int)))).Sublist ts.enum :=
        List.filter_sublist _
      have h2 := h1.map Prod.snd
      rwa [List.enum_map_snd] at h2
  · intro ts poss i h hsel
    rw [limitBySetPos]
    split
    · exact List.get_mem ts i h
    · refine List.mem_map.2 ⟨(i, ts.get ⟨i, h⟩), ?_, rfl⟩
      rw [List.mem_filter]
      refine ⟨List.mk_mem_enum_iff_getElem?.2
        (by rw [List.getElem?_eq_getElem h, List.get_eq_getElem]), ?_⟩
      rw [List.any_eq_true]
      rcases hsel with hs | hs
      · exact ⟨(i : Int) + 1, hs, by simp⟩
      · exact ⟨(i : Int) - (ts.length : Int), hs, by simp⟩
  · intro ts poss hne u hu
    rw [limitBySetPos, if_neg hne] at hu
    obtain ⟨p, hmem, hx⟩ := List.mem_map.1 hu
    obtain ⟨i, x⟩ := p
    have h1 := (List.mem_filter.1 hmem).1
    have h2 := (List.mem_filter.1 hmem).2
    have hget := List.mk_mem_enum_iff_getElem?.1 h1
    have hlt : i < ts.length := by
      by_contra hge
      rw [List.getElem?_eq_none (Nat.le_of_not_lt hge)] at hget
      cases hget
    refine ⟨i, hlt, ?_, ?_⟩
    · rw [List.getElem?_eq_getElem hlt] at hget
      cases hget
      rw [← hx]
      exact (List.get_eq_getElem ts ⟨i, hlt⟩).symm
    · rw [List.any_eq_true] at h2
      obtain ⟨sp, hsp, hcond⟩ := h2
      simp only [decide_eq_true_eq] at hcond
      rcases hcond with hc | hc
      · exact Or.inl (hc ▸ hsp)
      · exact Or.inr (hc ▸ hsp)
  · intro ts poss hne
    rw [limitBySetPos, limitBySetPos, if_neg hne]
    have hne2 : poss ≠ [] := by
      intro he
      rw [he] at hne
      exact hne rfl
    rw [if_neg hne2]
    congr 1
    apply List.filter_congr
    intro p hmem
    obtain ⟨i, x⟩ := p
    have hget := List.mk_mem_enum_iff_getElem?.1 hmem
    have hi : i < ts.length := by
      by_contra hge
      rw [List.getElem?_eq_none (Nat.le_of_not_lt hge)] at hget
      cases hget
    rw [Bool.eq_iff_iff, List.any_eq_true, List.any_eq_true]
    constructor
    · rintro ⟨sp, hsp, hc⟩
      exact ⟨sp, (List.mem_filter.1 hsp).1, hc⟩
    · rintro ⟨sp, hsp, hc⟩
      refine ⟨sp, List.mem_filter.2 ⟨hsp, ?_⟩, hc⟩
      rw [decide_eq_true_eq] at hc ⊢
      rcases hc with hc | hc <;> (subst hc; simp; omega)
  · intro ts
    exact ⟨sorted_sortDedupT ts, chain_ne_dedupSorted _⟩
  · intro r now t
    rw [setSecondly]
    dsimp only
    split <;> rfl
  · intro r now t
    rfl
  · intro r now t
    rfl
  · intro r now t
    rfl
  · intro r now t
    rfl
  · intro r now t
    rfl
  · intro r now t h
    constructor
    · simp only [setMonthly]
      rw [if_pos h]
    · intro poss
      simp only [setMonthly]
      rw [if_pos (show ({ r with BySetPos := poss } : RRule).ByMonthDays ≠ []
        from h), if_pos h]
  · intro r now t h1 h2
    simp only [setMonthly]
    rw [if_neg (by simp [h1]), if_pos h2]

/-- Witness for the amended C6: the selection-semantics parts at a concrete
three-element batch, and the MONTHLY application-site parts at concrete
BYMONTHDAY and BYDAY patterns. -/
theorem setpos_semantics_and_sites_witness :
    ((⟨2018, 8, 25, 9, 8, 1⟩ : DateTime) ∈
      limitBySetPos [⟨2018, 8, 25, 9, 8, 1⟩, ⟨2018, 8, 25, 9, 8, 2⟩,
        ⟨2018, 8, 25, 9, 8, 3⟩] [1, -1]) ∧
    (∃ (i : Nat) (h : i < ([⟨2018, 8, 25, 9, 8, 1⟩, ⟨2018, 8, 25, 9, 8, 2⟩,
        ⟨2018, 8, 25, 9, 8, 3⟩] : List DateTime).length),
      (⟨2018, 8, 25, 9, 8, 3⟩ : DateTime) =
        ([⟨2018, 8, 25, 9, 8, 1⟩, ⟨2018, 8, 25, 9, 8, 2⟩,
          ⟨2018, 8, 25, 9, 8, 3⟩] : List DateTime).get ⟨i, h⟩ ∧
      ((i : Int) + 1 ∈ [1, -1] ∨ (i : Int) - 3 ∈ [1, -1])) ∧
    limitBySetPos [⟨2018, 8, 25, 9, 8, 1⟩, ⟨2018, 8, 25, 9, 8, 2⟩,
        ⟨2018, 8, 25, 9, 8, 3⟩] (List.filter (fun sp => sp.natAbs ≤ 3) [1, 400, -1]) =
      limitBySetPos [⟨2018, 8, 25, 9, 8, 1⟩, ⟨2018, 8, 25, 9, 8, 2⟩,
        ⟨2018, 8, 25, 9, 8, 3⟩] [1, 400, -1] ∧
    ((setMonthly rC6m goZeroTime).variations ⟨2018, 8, 25, 9, 8, 7⟩ =
      expandByMonthDays (expandByHours (expandByMinutes (expandBySeconds
        [⟨2018, 8, 25, 9, 8, 7⟩] rC6m.BySeconds) rC6m.ByMinutes) rC6m.ByHours)
        rC6m.InvalidBehavior rC6m.ByMonthDays) ∧
    ((setMonthly { rC6m with BySetPos := [2] } goZeroTime).variations
        ⟨2018, 8, 25, 9, 8, 7⟩ =
      (setMonthly rC6m goZeroTime).variations ⟨2018, 8, 25, 9, 8, 7⟩) ∧
    (setMonthly rC6d goZeroTime).variations ⟨2018, 8, 25, 9, 8, 7⟩ =
      expandMonthByWeekdays (expandByHours (expandByMinutes (expandBySeconds
        [⟨2018, 8, 25, 9, 8, 7⟩] rC6d.BySeconds) rC6d.ByMinutes) rC6d.ByHours)
        rC6d.InvalidBehavior rC6d.BySetPos rC6d.ByWeekdays :=
  ⟨setpos_semantics_and_sites.2.1 _ [1, -1] 0 (by decide) (Or.inl (by decide)),
   setpos_semantics_and_sites.2.2.1 _ [1, -1] (by decide) _ (by decide),
   setpos_semantics_and_sites.2.2.2.1 _ [1, 400, -1] (by decide),
   (setpos_semantics_and_sites.2.2.2.2.2.2.2.2.2.2.2.1 rC6m goZeroTime
     ⟨2018, 8, 25, 9, 8, 7⟩ (by decide)).1,
   (setpos_semantics_and_sites.2.2.2.2.2.2.2.2.2.2.2.1 rC6m goZeroTime
     ⟨2018, 8, 25, 9, 8, 7⟩ (by decide)).2 [2],
   setpos_semantics_and_sites.2.2.2.2.2.2.2.2.2.2.2.2 rC6d goZeroTime
     ⟨2018, 8, 25, 9, 8, 7⟩ (by decide) (by decide)⟩

/-! ## Ordering of the emitted sequence -/

/-- The driver state after `k` advances. -/
def nthState (it : iterator) : Nat → NextState
  | 0 => it.startState
  | k + 1 => (it.next (nthState it k)).2

/-- The `k`-th pivot handed to the kernel. -/
def nthPivot (it : iterator) (k : Nat) : DateTime := (it.next (nthState it k)).1

theorem processBatch_sorted (it : iterator) (pivot : DateTime) :
    (processBatch it pivot).Sorted timeRel :=
  List.Pairwise.filter _ (sorted_sortDedupT _)

/-- A valid MONTHLY pattern on which the emitted sequence decreases:
BYMONTHDAY = 1 and 30 with ROLL_FORWARD; the February batch rolls Feb 30 to
March 2, which is emitted before the March batch's March 1. -/
def rC1 : RRule :=
  { defaultRRule with
    Frequency := Monthly, Count := 6, ByMonthDays := [1, 30],
    Dtstart := ⟨2019, 1, 1, 0, 0, 0⟩, InvalidBehavior := .NextInvalid }

/-- Counterexample to **C1** as stated: `rC1` passes validation, yet the
emitted sequence places 2019-03-02 (index 3) before 2019-03-01 (index 4). -/
theorem ordering_counterexample :
    RRule.Validate rC1 = none ∧
    (runIter (setMonthly rC1 goZeroTime) 20).1 =
      [⟨2019, 1, 1, 0, 0, 0⟩, ⟨2019, 1, 30, 0, 0, 0⟩, ⟨2019, 2, 1, 0, 0, 0⟩,
       ⟨2019, 3, 2, 0, 0, 0⟩, ⟨2019, 3, 1, 0, 0, 0⟩, ⟨2019, 3, 30, 0, 0, 0⟩] ∧
    ¬ timeRel (⟨2019, 3, 2, 0, 0, 0⟩ : DateTime) ⟨2019, 3, 1, 0, 0, 0⟩ := by
  refine ⟨by decide, by decide, by decide⟩

theorem runIterAux_sorted (it : iterator) :
    ∀ (fuel k : Nat) (acc : List DateTime),
      acc.Sorted timeRel →
      (∀ t ∈ acc, ∀ j, k ≤ j → j < k + fuel →
        ∀ u ∈ processBatch it (nthPivot it j), timeRel t u) →
      (∀ j, k ≤ j → j < k + fuel → ∀ i, k ≤ i → i < j →
        ∀ t ∈ processBatch it (nthPivot it i),
        ∀ u ∈ processBatch it (nthPivot it j), timeRel t u) →
      ((runIterAux it fuel (nthState it k) acc).1).Sorted timeRel := by
  intro fuel
  induction fuel with
  | zero =>
      intro k acc hacc _ _
      exact hacc
  | succ n ih =>
      intro k acc hacc hbelow hcross
      rw [runIterAux]
      have hp1 : (it.next (nthState it k)).1 = nthPivot it k := rfl
      have hp2 : (it.next (nthState it k)).2 = nthState it (k + 1) := rfl
      split
      · exact hacc
      · dsimp only
        rw [hp1, hp2]
        split
        · apply (List.pairwise_append).2
          refine ⟨hacc, ?_, ?_⟩
          · exact ((processBatch_sorted it (nthPivot it k)).sublist
              (List.take_sublist _ _))
          · intro t ht u hu
            exact hbelow t ht k (le_refl k) (by omega) u
              (List.take_subset _ _ hu)
        · have hacc2 : (acc ++ processBatch it (nthPivot it k)).Sorted timeRel := by
            apply (List.pairwise_append).2
            refine ⟨hacc, processBatch_sorted it (nthPivot it k), ?_⟩
            intro t ht u hu
            exact hbelow t ht k (le_refl k) (by omega) u hu
          apply ih (k + 1) (acc ++ processBatch it (nthPivot it k)) hacc2
          · intro t ht j hj1 hj2 u hu
            rcases List.mem_append.1 ht with h | h
            · exact hbelow t h j (by omega) (by omega) u hu
            · exact hcross j (by omega) (by omega) k (le_refl k) (by omega) t h u hu
          · intro j hj1 hj2 i hi1 hi2 t ht u hu
            exact hcross j (by omega) (by omega) i (by omega) hi2 t ht u hu

/-- C1 (amended): within each pivot batch the emitted instants are
sorted ascending, and the whole emitted sequence is non-decreasing
provided every batch's candidates are bounded by the candidates of every
later batch — the cross-batch condition that the ROLL_FORWARD invalid-date
policy can violate (see the counterexample). -/
theorem batches_ordered_emits_sorted (it : iterator) (fuel : Nat)
    (hcross : ∀ j, j < fuel → ∀ i, i < j →
      ∀ t ∈ processBatch it (nthPivot it i),
      ∀ u ∈ processBatch it (nthPivot it j), timeRel t u) :
    ((runIter it fuel).1).Sorted timeRel := by
  have h0 : nthState it 0 = it.startState := rfl
  rw [runIter, ← h0]
  apply runIterAux_sorted it fuel 0 []
  · exact List.sorted_nil
  · intro t ht
    cases ht
  · intro j _ hj2 i _ hi2 t ht u hu
    exact hcross j (by omega) i hi2 t ht u hu

/-- A simple valid daily pattern for the C1 witness. -/
def rC1w : RRule :=
  { defaultRRule with
    Frequency := Daily, Count := 2, Dtstart := ⟨2018, 8, 25, 9, 8, 7⟩ }

/-- Witness for the amended C1: the daily COUNT=2 run is sorted; the
cross-batch hypothesis holds concretely for its three pivots. -/
theorem batches_ordered_emits_sorted_witness :
    ((runIter (setDaily rC1w goZeroTime) 3).1).Sorted timeRel :=
  batches_ordered_emits_sorted (setDaily rC1w goZeroTime) 3 (by decide)

/-! ## The SECONDLY fast path (refinement)

For the SECONDLY driver at interval 1, the only time operations involved
are `Add` of whole seconds and reading the second-of-minute, so the slice
is modelled on absolute second counts: an instant is an `Int`, and the
second of an instant `t` is `t.emod 60`.  `optPivots` is the translation
of the optimized `nextFn` of `setSecondly` (same `firstJump` /
`secondsLooper` helpers as the `DateTime`-level driver above);
`naivePivots` is the unoptimized advance at interval 1. -/

/-- Second-of-minute of an absolute second count. -/
def secOf (t : Int) : Int := t.emod 60

/-- Modelled from the spec: the second limiter on the `Int` slice. -/
def validSecondI (vals : List Int) (t : Int) : Bool :=
  vals.isEmpty || vals.contains (secOf t)

/-- The unoptimized SECONDLY pivots at interval 1: one per second. -/
def naivePivots (start : Int) (n : Nat) : List Int :=
  (List.range n).map (fun k : Nat => start + (k : Int))

/-- The naive pivots surviving the second limiter. -/
def naiveSurvivors (start : Int) (vals : List Int) (n : Nat) : List Int :=
  (naivePivots start n).filter (validSecondI vals)

/-- The optimized `nextFn` state on the `Int` slice. -/
structure OptStateI where
  cur : Int
  loopIdx : Nat
  afterFirst : Bool
deriving DecidableEq, Repr

/-- One step of the optimized advance (`rrule.go`, `setSecondly`). -/
def optNextI (firstDiff : Int) (looper : List Int) (st : OptStateI) : Int × OptStateI :=
  if st.afterFirst then
    (st.cur, ⟨st.cur + looper.getD st.loopIdx 0,
      if st.loopIdx + 1 ≥ looper.length then 0 else st.loopIdx + 1, true⟩)
  else
    (st.cur, ⟨st.cur + firstDiff, st.loopIdx, true⟩)

/-- The first `n` pivots produced by the optimized advance. -/
def optPivotsAux (firstDiff : Int) (looper : List Int) : Nat → OptStateI → List Int
  | 0, _ => []
  | n + 1, st => (optNextI firstDiff looper st).1 ::
      optPivotsAux firstDiff looper n (optNextI firstDiff looper st).2

/-- The optimized SECONDLY pivot list, from the pattern's BYSECOND values
(normalized, sorted) and the anchor, as `setSecondly` builds it. -/
def optPivots (start : Int) (vals : List Int) (n : Nat) : List Int :=
  optPivotsAux (firstJump (secOf start) (sortInts (normSeconds vals))).2
    (secondsLooper (sortInts (normSeconds vals))) n
    ⟨start, (firstJump (secOf start) (sortInts (normSeconds vals))).1, false⟩

/-- The optimized pivots surviving the second limiter. -/
def optSurvivors (start : Int) (vals : List Int) (n : Nat) : List Int :=
  (optPivots start vals n).filter (validSecondI vals)

/-- The jump from a second-of-minute to the next listed second. -/
def gapAfter (seconds : List Int) (s : Int) : Int := (firstJump s seconds).2

/-- The next instant after `t` whose second is listed. -/
def nextGoodI (seconds : List Int) (t : Int) : Int := t + gapAfter seconds (secOf t)

/-- The canonical enumeration of the instants ≥ `start` whose second is
listed, in increasing order. -/
def chainI (seconds : List Int) (start : Int) : Nat → Int
  | 0 => if seconds.contains (secOf start) then start else nextGoodI seconds start
  | n + 1 => nextGoodI seconds (chainI seconds start n)

/-- The `n`-fold iterate of `nextGoodI`. -/
def goodIter (seconds : List Int) (t : Int) : Nat → Int
  | 0 => t
  | n + 1 => nextGoodI seconds (goodIter seconds t n)

example : naiveSurvivors 100 [5, 20] 101 = [125, 140, 185, 200] := by decide
example : optPivots 100 [5, 20] 4 = [100, 125, 140, 185] := by decide
example : optSurvivors 100 [5, 20] 4 = [125, 140, 185] := by decide
example : (List.range 3).map (chainI [5, 20] 100) = [125, 140, 185] := by decide

theorem emod_eq_mod (a b : Int) : a.emod b = a % b := rfl

theorem findPast_none_iff (s0 : Int) : ∀ (l : List Int) (base : Nat),
    findPast s0 l base = none ↔ ∀ x ∈ l, x ≤ s0
  | [], base => by simp [findPast]
  | s :: rest, base => by
      rw [findPast]
      split
      · rename_i hgt
        constructor
        · intro h; cases h
        · intro h
          exact absurd (h s (List.mem_cons_self s rest)) (by omega)
      · rename_i hle
        rw [findPast_none_iff s0 rest (base + 1)]
        constructor
        · intro h x hx
          rcases List.mem_cons.1 hx with rfl | hx2
          · omega
          · exact h x hx2
        · intro h x hx
          exact h x (List.mem_cons_of_mem _ hx)

theorem findPast_some_spec (s0 : Int) : ∀ (l : List Int) (base j : Nat) (d : Int),
    findPast s0 l base = some (j, d) →
    ∃ k : Nat, j = base + k ∧ l.get? k = some (s0 + d) ∧ 0 < d ∧
      ∀ k2, k2 < k → ∀ y, l.get? k2 = some y → y ≤ s0
  | [], base, j, d => by simp [findPast]
  | s :: rest, base, j, d => by
      rw [findPast]
      split
      · rename_i hgt
        intro h
        injection h with h2
        injection h2 with hb hd
        subst hb
        subst hd
        refine ⟨0, by omega, ?_, by omega, ?_⟩
        · show (s :: rest).get? 0 = some (s0 + (s - s0))
          rw [show s0 + (s - s0) = s from by omega]
          rfl
        · intro k2 hk2
          exact absurd hk2 (Nat.not_lt_zero k2)
      · rename_i hle
        intro h
        obtain ⟨k, hk1, hk2, hk3, hk4⟩ := findPast_some_spec s0 rest (base + 1) j d h
        refine ⟨k + 1, by omega, hk2, hk3, ?_⟩
        intro k2 hk2lt y hy
        match k2, hy with
        | 0, hy => injection hy with hy; omega
        | k2 + 1, hy => exact hk4 k2 (by omega) y hy

/-- The gap jumps to the next listed second cyclically: it is in [1, 60],
it lands on a listed second, and it skips no listed second. -/
theorem gapAfter_spec (S : List Int) (hs : S.Sorted (· < ·)) (hne : S ≠ [])
    (hrange : ∀ x ∈ S, 0 ≤ x ∧ x ≤ 59) (s0 : Int) (h0 : 0 ≤ s0) (h59 : s0 ≤ 59) :
    (1 ≤ gapAfter S s0 ∧ gapAfter S s0 ≤ 60) ∧
    (s0 + gapAfter S s0).emod 60 ∈ S ∧
    ∀ e : Int, 1 ≤ e → e < gapAfter S s0 → (s0 + e).emod 60 ∉ S := by
  simp only [emod_eq_mod]
  rw [gapAfter, firstJump]
  rcases hfp : findPast s0 S 0 with _ | p
  · have hall := (findPast_none_iff s0 S 0).1 hfp
    obtain ⟨hd, tl, rfl⟩ := List.exists_cons_of_ne_nil hne
    have hhd := hrange hd (List.mem_cons_self hd tl)
    have hhdle := hall hd (List.mem_cons_self hd tl)
    have hleast : ∀ y ∈ hd :: tl, hd ≤ y := by
      intro y hy
      rcases List.mem_cons.1 hy with rfl | hy2
      · exact le_refl y
      · exact le_of_lt ((List.sorted_cons.1 hs).1 y hy2)
    dsimp only [List.headD]
    refine ⟨⟨by omega, by omega⟩, ?_, ?_⟩
    · rw [show s0 + (hd + 60 - s0) = hd + 60 from by omega]
      rw [show (hd + 60) % 60 = hd from by omega]
      exact List.mem_cons_self hd tl
    · intro e he1 he2 hmem
      have hx := hrange _ hmem
      have hxle := hall _ hmem
      have hxge := hleast _ hmem
      rcases Int.lt_or_le (s0 + e) 60 with hcase | hcase
      · rw [show (s0 + e) % 60 = s0 + e from by omega] at hmem hx hxle hxge
        omega
      · rw [show (s0 + e) % 60 = s0 + e - 60 from by omega] at hmem hx hxle hxge
        omega
  · obtain ⟨j, d⟩ := p
    dsimp only
    obtain ⟨k, hk1, hk2, hk3, hk4⟩ := findPast_some_spec s0 S 0 j d hfp
    have hkmem : (s0 + d) ∈ S := List.get?_mem hk2
    have hkr := hrange _ hkmem
    refine ⟨⟨by omega, by omega⟩, ?_, ?_⟩
    · rw [show (s0 + d) % 60 = s0 + d from by omega]
      exact hkmem
    · intro e he1 he2 hmem
      rw [show (s0 + e) % 60 = s0 + e from by omega] at hmem
      obtain ⟨⟨m, hm⟩, hget⟩ := List.get_of_mem hmem
      have hklt : k < S.length := by
        by_contra hk
        rw [List.get?_eq_none.2 (Nat.le_of_not_lt hk)] at hk2
        cases hk2
      rcases Nat.lt_trichotomy m k with hmk | hmk | hmk
      · have := hk4 m hmk _ (List.get?_eq_get hm)
        rw [hget] at this
        omega
      · subst hmk
        rw [List.get?_eq_get hm] at hk2
        injection hk2 with hk2
        rw [hget] at hk2
        omega
      · have := (List.pairwise_iff_get.1 hs) ⟨k, hklt⟩ ⟨m, hm⟩ hmk
        rw [hget] at this
        rw [List.get?_eq_get hklt] at hk2
        injection hk2 with hk2
        rw [hk2] at this
        omega

theorem secOf_bounds (t : Int) : 0 ≤ secOf t ∧ secOf t ≤ 59 := by
  rw [secOf, emod_eq_mod]
  omega

theorem secOf_shift (t e : Int) : secOf (t + e) = (secOf t + e) % 60 := by
  rw [secOf, secOf, emod_eq_mod, emod_eq_mod]
  omega

theorem nextGoodI_spec (S : List Int) (hs : S.Sorted (· < ·)) (hne : S ≠ [])
    (hrange : ∀ x ∈ S, 0 ≤ x ∧ x ≤ 59) (t : Int) :
    t < nextGoodI S t ∧ nextGoodI S t ≤ t + 60 ∧ secOf (nextGoodI S t) ∈ S ∧
    ∀ u : Int, t < u → u < nextGoodI S t → secOf u ∉ S := by
  have hb := secOf_bounds t
  obtain ⟨⟨hg1, hg2⟩, hgood, hmin⟩ := gapAfter_spec S hs hne hrange (secOf t) hb.1 hb.2
  rw [nextGoodI]
  refine ⟨by omega, by omega, ?_, ?_⟩
  · rw [secOf_shift]
    rw [emod_eq_mod] at hgood
    exact hgood
  · intro u hu1 hu2 hmem
    rw [show u = t + (u - t) from by omega, secOf_shift] at hmem
    simp only [emod_eq_mod] at hmin
    exact hmin (u - t) (by omega) (by omega) hmem

theorem chainI_good (S : List Int) (hs : S.Sorted (· < ·)) (hne : S ≠ [])
    (hrange : ∀ x ∈ S, 0 ≤ x ∧ x ≤ 59) (start : Int) :
    ∀ n, secOf (chainI S start n) ∈ S
  | 0 => by
      rw [chainI]
      split
      · rename_i hc
        exact List.elem_iff.mp hc
      · exact (nextGoodI_spec S hs hne hrange start).2.2.1
  | n + 1 => (nextGoodI_spec S hs hne hrange (chainI S start n)).2.2.1

theorem chainI_zero (S : List Int) (hs : S.Sorted (· < ·)) (hne : S ≠ [])
    (hrange : ∀ x ∈ S, 0 ≤ x ∧ x ≤ 59) (start : Int) :
    start ≤ chainI S start 0 ∧
    ∀ u : Int, start ≤ u → u < chainI S start 0 → secOf u ∉ S := by
  rw [chainI]
  split
  · exact ⟨le_refl start, fun u hu1 hu2 _ => by omega⟩
  · rename_i hc
    obtain ⟨hlt, _, _, hmin⟩ := nextGoodI_spec S hs hne hrange start
    refine ⟨le_of_lt hlt, ?_⟩
    intro u hu1 hu2 hmem
    rcases Int.lt_or_le start u with hu | hu
    · exact hmin u hu hu2 hmem
    · have : u = start := by omega
      subst this
      exact hc (List.elem_iff.2 hmem)

theorem normSeconds_id (vals : List Int) (h : ∀ v ∈ vals, 0 ≤ v ∧ v ≤ 59) :
    normSeconds vals = vals := by
  rw [normSeconds]
  have hcongr : ∀ v ∈ vals, (if v < 0 then v + 60 else v) = id v := by
    intro v hv
    have := h v hv
    rw [if_neg (by omega)]
    rfl
  rw [List.map_congr_left hcongr, List.map_id]

theorem S_props (vals : List Int) (h1 : vals ≠ []) (h2 : vals.Nodup)
    (h3 : ∀ v ∈ vals, 0 ≤ v ∧ v ≤ 59) :
    (sortInts (normSeconds vals)).Sorted (· < ·) ∧
    sortInts (normSeconds vals) ≠ [] ∧
    (∀ x ∈ sortInts (normSeconds vals), 0 ≤ x ∧ x ≤ 59) ∧
    (∀ x : Int, x ∈ sortInts (normSeconds vals) ↔ x ∈ vals) := by
  rw [normSeconds_id vals h3]
  have hperm := List.perm_insertionSort (fun a b : Int => a ≤ b) vals
  refine ⟨?_, ?_, ?_, ?_⟩
  · exact (List.sorted_insertionSort _ vals).lt_of_le (hperm.nodup_iff.2 h2)
  · intro he
    rw [sortInts] at he
    rw [he] at hperm
    exact h1 hperm.symm.eq_nil
  · intro x hx
    exact h3 x (hperm.mem_iff.1 hx)
  · intro x
    exact hperm.mem_iff

theorem validSecondI_iff (vals : List Int) (h1 : vals ≠ []) (t : Int) :
    validSecondI vals t = true ↔ secOf t ∈ vals := by
  rw [validSecondI]
  rw [Bool.or_eq_true]
  constructor
  · intro h
    rcases h with h | h
    · exact absurd (List.isEmpty_iff.1 h) h1
    · exact List.elem_iff.mp h
  · intro h
    exact Or.inr (List.elem_iff.2 h)

theorem naiveChain (vals : List Int) (start : Int)
    (h1 : vals ≠ []) (h2 : vals.Nodup) (h3 : ∀ v ∈ vals, 0 ≤ v ∧ v ≤ 59) :
    ∀ m : Nat,
      naiveSurvivors start vals m =
        (List.range ((naiveSurvivors start vals m).length)).map
          (chainI (sortInts (normSeconds vals)) start) ∧
      start + (m : Int) ≤ chainI (sortInts (normSeconds vals)) start
        ((naiveSurvivors start vals m).length) ∧
      ∀ u : Int, start + (m : Int) ≤ u →
        u < chainI (sortInts (normSeconds vals)) start
          ((naiveSurvivors start vals m).length) →
        secOf u ∉ sortInts (normSeconds vals) := by
  obtain ⟨hsort, hsne, hrange, hmem⟩ := S_props vals h1 h2 h3
  intro m
  induction m with
  | zero =>
      have he : naiveSurvivors start vals 0 = [] := by
        rw [naiveSurvivors, naivePivots]
        rfl
      rw [he]
      obtain ⟨hz1, hz2⟩ := chainI_zero _ hsort hsne hrange start
      exact ⟨rfl, by simpa using hz1, by simpa using hz2⟩
  | succ m ih =>
      obtain ⟨ihA, ihB, ihC⟩ := ih
      have hsplit : naiveSurvivors start vals (m + 1) =
          naiveSurvivors start vals m ++
            List.filter (validSecondI vals) [start + (m : Int)] := by
        rw [naiveSurvivors, naiveSurvivors, naivePivots, naivePivots,
          List.range_succ, List.map_append, List.filter_append]
        rfl
      rcases hP : validSecondI vals (start + (m : Int)) with _ | _
      · -- the (m+1)-th pivot is filtered out
        have hsame : naiveSurvivors start vals (m + 1) =
            naiveSurvivors start vals m := by
          rw [hsplit, List.filter_singleton, hP]
          simp
        rw [hsame]
        have hnotS : secOf (start + (m : Int)) ∉ sortInts (normSeconds vals) := by
          intro hin
          have := (validSecondI_iff vals h1 _).2 ((hmem _).1 hin)
          rw [hP] at this
          cases this
        have hgood := chainI_good _ hsort hsne hrange start
          ((naiveSurvivors start vals m).length)
        have hstrict : start + (m : Int) <
            chainI (sortInts (normSeconds vals)) start
              ((naiveSurvivors start vals m).length) := by
          rcases Int.lt_or_le (start + (m : Int))
            (chainI (sortInts (normSeconds vals)) start
              ((naiveSurvivors start vals m).length)) with h | h
          · exact h
          · have heq : chainI (sortInts (normSeconds vals)) start
                ((naiveSurvivors start vals m).length) = start + (m : Int) := by
              omega
            rw [heq] at hgood
            exact absurd hgood hnotS
        refine ⟨ihA, by push_cast; omega, ?_⟩
        intro u hu1 hu2
        exact ihC u (by push_cast at hu1 ⊢; omega) hu2
      · -- the (m+1)-th pivot survives
        have hinS : secOf (start + (m : Int)) ∈ sortInts (normSeconds vals) :=
          (hmem _).2 ((validSecondI_iff vals h1 _).1 hP)
        have hceq : chainI (sortInts (normSeconds vals)) start
            ((naiveSurvivors start vals m).length) = start + (m : Int) := by
          rcases Int.lt_or_le (start + (m : Int))
            (chainI (sortInts (normSeconds vals)) start
              ((naiveSurvivors start vals m).length)) with h | h
          · exact absurd hinS (ihC _ (le_refl _) h)
          · omega
        have hlen : (naiveSurvivors start vals (m + 1)).length =
            (naiveSurvivors start vals m).length + 1 := by
          rw [hsplit, List.length_append, List.filter_singleton, hP]
          simp
        obtain ⟨hn1, hn2, _, hn4⟩ := nextGoodI_spec _ hsort hsne hrange
          (chainI (sortInts (normSeconds vals)) start
            ((naiveSurvivors start vals m).length))
        refine ⟨?_, ?_, ?_⟩
        · rw [hlen, List.range_succ, List.map_append, ← ihA, hsplit,
            List.filter_singleton, hP, Bool.cond_true]
          congr 1
          rw [List.map_singleton, hceq]
        · rw [hlen]
          show start + (((m : Nat) + 1 : Nat) : Int) ≤
            nextGoodI (sortInts (normSeconds vals))
              (chainI (sortInts (normSeconds vals)) start
                (naiveSurvivors start vals m).length)
          rw [hceq] at hn1 ⊢
          push_cast
          omega
        · intro u hu1 hu2
          rw [hlen] at hu2
          have hu2' : u < nextGoodI (sortInts (normSeconds vals))
              (chainI (sortInts (normSeconds vals)) start
                ((naiveSurvivors start vals m).length)) := hu2
          apply hn4 u ?_ hu2'
          rw [hceq]
          push_cast at hu1
          omega

theorem looperAux_length (first : Int) : ∀ l : List Int,
    (looperAux first l).length = l.length
  | [] => rfl
  | [_] => rfl
  | a :: b :: rest => by
      show ((b - a) :: looperAux first (b :: rest)).length = (a :: b :: rest).length
      rw [List.length_cons, looperAux_length first (b :: rest)]
      rfl

theorem secondsLooper_length (S : List Int) :
    (secondsLooper S).length = S.length := by
  cases S with
  | nil => rfl
  | cons h rest => exact looperAux_length h (h :: rest)

theorem looperAux_get_mid (first : Int) : ∀ (l : List Int) (i : Nat) (y z : Int),
    l.get? i = some y → l.get? (i + 1) = some z →
    (looperAux first l).get? i = some (z - y)
  | [], i, y, z => by intro h _; cases h
  | [a], i, y, z => by
      intro _ h2
      rw [show ([a] : List Int).get? (i + 1) = none from by
        cases i <;> rfl] at h2
      cases h2
  | a :: b :: rest, 0, y, z => by
      intro h1 h2
      injection h1 with h1
      injection h2 with h2
      subst h1
      subst h2
      rfl
  | a :: b :: rest, i + 1, y, z => by
      intro h1 h2
      show (looperAux first (b :: rest)).get? i = some (z - y)
      exact looperAux_get_mid first (b :: rest) i y z h1 h2

theorem looperAux_get_last (first : Int) : ∀ (l : List Int) (i : Nat) (y : Int),
    l.get? i = some y → l.get? (i + 1) = none →
    (looperAux first l).get? i = some (60 + first - y)
  | [], i, y => by intro h _; cases h
  | [a], 0, y => by
      intro h1 _
      injection h1 with h1
      subst h1
      rfl
  | [a], i + 1, y => by
      intro h1 _
      rw [show ([a] : List Int).get? (i + 1) = none from by cases i <;> rfl] at h1
      cases h1
  | a :: b :: rest, 0, y => by
      intro _ h2
      cases h2
  | a :: b :: rest, i + 1, y => by
      intro h1 h2
      show (looperAux first (b :: rest)).get? i = some (60 + first - y)
      exact looperAux_get_last first (b :: rest) i y h1 h2

theorem gapAfter_at_mid (S : List Int) (hs : S.Sorted (· < ·))
    (i : Nat) (y z : Int) (hy : S.get? i = some y) (hz : S.get? (i + 1) = some z) :
    gapAfter S y = z - y := by
  have hilt : i < S.length := by
    by_contra hk
    rw [List.get?_eq_none.2 (Nat.le_of_not_lt hk)] at hy
    cases hy
  have hi1lt : i + 1 < S.length := by
    by_contra hk
    rw [List.get?_eq_none.2 (Nat.le_of_not_lt hk)] at hz
    cases hz
  have hyz : y < z := by
    have := (List.pairwise_iff_get.1 hs) ⟨i, hilt⟩ ⟨i + 1, hi1lt⟩ (by simp)
    rw [List.get?_eq_get hilt] at hy
    rw [List.get?_eq_get hi1lt] at hz
    injection hy with hy
    injection hz with hz
    rw [hy, hz] at this
    exact this
  rw [gapAfter, firstJump]
  rcases hfp : findPast y S 0 with _ | p
  · have hall := (findPast_none_iff y S 0).1 hfp
    exact absurd (hall z (List.get?_mem hz)) (by omega)
  · obtain ⟨j, d⟩ := p
    dsimp only
    obtain ⟨k, hk1, hk2, hk3, hk4⟩ := findPast_some_spec y S 0 j d hfp
    have hklt : k < S.length := by
      by_contra hk
      rw [List.get?_eq_none.2 (Nat.le_of_not_lt hk)] at hk2
      cases hk2
    rcases Nat.lt_trichotomy k (i + 1) with hki | hki | hki
    · -- k ≤ i: S[k] ≤ S[i] = y, but S[k] = y + d > y
      exfalso
      rcases Nat.lt_or_ge k i with hki2 | hki2
      · have := (List.pairwise_iff_get.1 hs) ⟨k, hklt⟩ ⟨i, hilt⟩ hki2
        rw [List.get?_eq_get hklt] at hk2
        rw [List.get?_eq_get hilt] at hy
        injection hk2 with hk2
        injection hy with hy
        rw [hk2, hy] at this
        omega
      · have hik : k = i := by omega
        subst hik
        rw [hy] at hk2
        injection hk2 with hk2
        omega
    · subst hki
      rw [hz] at hk2
      injection hk2 with hk2
      omega
    · -- k > i + 1: the element at i + 1 would be ≤ y, but it is z > y
      exfalso
      have := hk4 (i + 1) hki z hz
      omega

theorem gapAfter_at_last (S : List Int) (hs : S.Sorted (· < ·))
    (i : Nat) (y : Int) (hy : S.get? i = some y) (hlast : S.get? (i + 1) = none) :
    gapAfter S y = S.headD 0 + 60 - y := by
  have hilt : i < S.length := by
    by_contra hk
    rw [List.get?_eq_none.2 (Nat.le_of_not_lt hk)] at hy
    cases hy
  have hlen : S.length ≤ i + 1 := List.get?_eq_none.1 hlast
  rw [gapAfter, firstJump]
  rcases hfp : findPast y S 0 with _ | p
  · rfl
  · obtain ⟨j, d⟩ := p
    dsimp only
    exfalso
    obtain ⟨k, hk1, hk2, hk3, hk4⟩ := findPast_some_spec y S 0 j d hfp
    have hklt : k < S.length := by
      by_contra hk
      rw [List.get?_eq_none.2 (Nat.le_of_not_lt hk)] at hk2
      cases hk2
    rcases Nat.lt_or_ge k i with hki | hki
    · have := (List.pairwise_iff_get.1 hs) ⟨k, hklt⟩ ⟨i, hilt⟩ hki
      rw [List.get?_eq_get hklt] at hk2
      rw [List.get?_eq_get hilt] at hy
      injection hk2 with hk2
      injection hy with hy
      rw [hk2, hy] at this
      omega
    · have hik : k = i := by omega
      subst hik
      rw [hy] at hk2
      injection hk2 with hk2
      omega

/-- The loop invariant of the optimized SECONDLY machine: the first step
has happened and the loop index points at the listed second of the cursor. -/
def InvO (S : List Int) (st : OptStateI) : Prop :=
  st.afterFirst = true ∧ S.get? st.loopIdx = some (secOf st.cur)

theorem optstep (S : List Int) (hs : S.Sorted (· < ·)) (hne : S ≠ [])
    (hrange : ∀ x ∈ S, 0 ≤ x ∧ x ≤ 59) (fd : Int) (st : OptStateI)
    (hInv : InvO S st) :
    (optNextI fd (secondsLooper S) st).1 = st.cur ∧
    (optNextI fd (secondsLooper S) st).2.cur = nextGoodI S st.cur ∧
    InvO S (optNextI fd (secondsLooper S) st).2 := by
  obtain ⟨haf, hidx⟩ := hInv
  obtain ⟨hd, tl, rfl⟩ := List.exists_cons_of_ne_nil hne
  have hlooper : secondsLooper (hd :: tl) = looperAux hd (hd :: tl) := rfl
  rw [optNextI, if_pos haf]
  have hgetD : (secondsLooper (hd :: tl)).getD st.loopIdx 0 =
      ((secondsLooper (hd :: tl)).get? st.loopIdx).getD 0 :=
    List.getD_eq_get? _ _ _
  have hidxlt : st.loopIdx < (hd :: tl).length := by
    by_contra hk
    rw [List.get?_eq_none.2 (Nat.le_of_not_lt hk)] at hidx
    cases hidx
  have hcurb := hrange _ (List.get?_mem hidx)
  rcases hnx : (hd :: tl).get? (st.loopIdx + 1) with _ | z
  · -- last listed second: wrap to the head
    have hg := looperAux_get_last hd (hd :: tl) st.loopIdx _ hidx hnx
    have hgap := gapAfter_at_last (hd :: tl) hs st.loopIdx _ hidx hnx
    have hlenle : (hd :: tl).length ≤ st.loopIdx + 1 := List.get?_eq_none.1 hnx
    have hidxcond : st.loopIdx + 1 ≥ (secondsLooper (hd :: tl)).length := by
      rw [secondsLooper_length]
      omega
    refine ⟨rfl, ?_, rfl, ?_⟩
    · show st.cur + (secondsLooper (hd :: tl)).getD st.loopIdx 0 = nextGoodI _ st.cur
      rw [hgetD, hlooper, hg]
      rw [nextGoodI, hgap]
      dsimp only [Option.getD, List.headD]
      ring_nf
    · show (hd :: tl).get? (if st.loopIdx + 1 ≥ (secondsLooper (hd :: tl)).length
          then 0 else st.loopIdx + 1) = some (secOf (st.cur + _))
      rw [if_pos hidxcond]
      rw [hgetD, hlooper, hg]
      dsimp only [Option.getD]
      have hhd := hrange hd (List.mem_cons_self hd tl)
      rw [secOf_shift]
      rw [show (secOf st.cur + (60 + hd - secOf st.cur)) % 60 = hd from by omega]
      rfl
  · -- interior listed second: advance the index
    have hg := looperAux_get_mid hd (hd :: tl) st.loopIdx _ z hidx hnx
    have hgap := gapAfter_at_mid (hd :: tl) hs st.loopIdx _ z hidx hnx
    have hi1lt : st.loopIdx + 1 < (hd :: tl).length := by
      by_contra hk
      rw [List.get?_eq_none.2 (Nat.le_of_not_lt hk)] at hnx
      cases hnx
    have hidxcond : ¬(st.loopIdx + 1 ≥ (secondsLooper (hd :: tl)).length) := by
      rw [secondsLooper_length]
      omega
    have hzb := hrange z (List.get?_mem hnx)
    refine ⟨rfl, ?_, rfl, ?_⟩
    · show st.cur + (secondsLooper (hd :: tl)).getD st.loopIdx 0 = nextGoodI _ st.cur
      rw [hgetD]
      rw [show secondsLooper (hd :: tl) = looperAux hd (hd :: tl) from rfl, hg]
      rw [nextGoodI, hgap]
      rfl
    · show (hd :: tl).get? (if st.loopIdx + 1 ≥ (secondsLooper (hd :: tl)).length
          then 0 else st.loopIdx + 1) = some (secOf (st.cur + _))
      rw [if_neg hidxcond]
      rw [hgetD]
      rw [show secondsLooper (hd :: tl) = looperAux hd (hd :: tl) from rfl, hg]
      dsimp only [Option.getD]
      rw [secOf_shift]
      rw [show (secOf st.cur + (z - secOf st.cur)) % 60 = z from by omega]
      exact hnx

theorem optfirst (S : List Int) (hs : S.Sorted (· < ·)) (hne : S ≠ [])
    (hrange : ∀ x ∈ S, 0 ≤ x ∧ x ≤ 59) (start : Int) :
    (optNextI (firstJump (secOf start) S).2 (secondsLooper S)
      ⟨start, (firstJump (secOf start) S).1, false⟩).1 = start ∧
    (optNextI (firstJump (secOf start) S).2 (secondsLooper S)
      ⟨start, (firstJump (secOf start) S).1, false⟩).2.cur = nextGoodI S start ∧
    InvO S (optNextI (firstJump (secOf start) S).2 (secondsLooper S)
      ⟨start, (firstJump (secOf start) S).1, false⟩).2 := by
  rw [optNextI]
  rw [if_neg (by simp)]
  have hb := secOf_bounds start
  refine ⟨rfl, rfl, rfl, ?_⟩
  show S.get? (firstJump (secOf start) S).1 =
    some (secOf (start + (firstJump (secOf start) S).2))
  rw [secOf_shift]
  rw [firstJump]
  rcases hfp : findPast (secOf start) S 0 with _ | p
  · obtain ⟨hd, tl, rfl⟩ := List.exists_cons_of_ne_nil hne
    have hall := (findPast_none_iff (secOf start) _ 0).1 hfp
    have hhd := hrange hd (List.mem_cons_self hd tl)
    have hhdle := hall hd (List.mem_cons_self hd tl)
    dsimp only [List.headD]
    rw [show (secOf start + (hd + 60 - secOf start)) % 60 = hd from by omega]
    rfl
  · obtain ⟨j, d⟩ := p
    dsimp only
    obtain ⟨k, hk1, hk2, hk3, hk4⟩ := findPast_some_spec (secOf start) S 0 j d hfp
    have hkr := hrange _ (List.get?_mem hk2)
    rw [show (secOf start + d) % 60 = secOf start + d from by omega]
    rw [hk1]
    simpa using hk2

theorem goodIter_good (S : List Int) (hs : S.Sorted (· < ·)) (hne : S ≠ [])
    (hrange : ∀ x ∈ S, 0 ≤ x ∧ x ≤ 59) (t : Int) :
    ∀ n : Nat, secOf (goodIter S t (n + 1)) ∈ S := by
  intro n
  show secOf (nextGoodI S (goodIter S t n)) ∈ S
  exact (nextGoodI_spec S hs hne hrange _).2.2.1

theorem goodIter_shift (S : List Int) (t : Int) :
    ∀ n : Nat, goodIter S (nextGoodI S t) n = goodIter S t (n + 1)
  | 0 => rfl
  | n + 1 => by
      show nextGoodI S (goodIter S (nextGoodI S t) n) =
        nextGoodI S (goodIter S t (n + 1))
      rw [goodIter_shift S t n]

theorem optPivotsAux_chain (S : List Int) (hs : S.Sorted (· < ·)) (hne : S ≠ [])
    (hrange : ∀ x ∈ S, 0 ≤ x ∧ x ≤ 59) (fd : Int) :
    ∀ (n : Nat) (st : OptStateI), InvO S st →
      optPivotsAux fd (secondsLooper S) n st =
        (List.range n).map (goodIter S st.cur) := by
  intro n
  induction n with
  | zero => intro st _; rfl
  | succ n ih =>
      intro st hInv
      obtain ⟨he, hc, hInv2⟩ := optstep S hs hne hrange fd st hInv
      rw [optPivotsAux, he, ih _ hInv2, hc]
      rw [List.range_succ_eq_map, List.map_cons, List.map_map]
      congr 1
      apply List.map_congr_left
      intro a _
      show goodIter S (nextGoodI S st.cur) a = goodIter S st.cur (a + 1)
      exact goodIter_shift S st.cur a

theorem chainI_eq_goodIter (S : List Int) (start : Int)
    (hc : S.contains (secOf start) = true) :
    ∀ n, chainI S start n = goodIter S start n
  | 0 => by
      rw [chainI, if_pos hc]
      rfl
  | n + 1 => by
      show nextGoodI S (chainI S start n) = nextGoodI S (goodIter S start n)
      rw [chainI_eq_goodIter S start hc n]

theorem chainI_eq_goodIter_not (S : List Int) (start : Int)
    (hc : S.contains (secOf start) = false) :
    ∀ n, chainI S start n = goodIter S (nextGoodI S start) n
  | 0 => by
      rw [chainI, if_neg (by rw [hc]; exact Bool.false_ne_true)]
      rfl
  | n + 1 => by
      show nextGoodI S (chainI S start n) = _
      rw [chainI_eq_goodIter_not S start hc n]
      rfl

theorem optChainCore (S vals : List Int) (start : Int)
    (hs : S.Sorted (· < ·)) (hsne : S ≠ [])
    (hrange : ∀ x ∈ S, 0 ≤ x ∧ x ≤ 59)
    (hvalid : ∀ t : Int, validSecondI vals t = true ↔ secOf t ∈ S) :
    ∀ n : Nat,
      ((optPivotsAux (firstJump (secOf start) S).2 (secondsLooper S) n
          ⟨start, (firstJump (secOf start) S).1, false⟩).filter
        (validSecondI vals)) =
      (List.range (((optPivotsAux (firstJump (secOf start) S).2 (secondsLooper S) n
          ⟨start, (firstJump (secOf start) S).1, false⟩).filter
        (validSecondI vals)).length)).map (chainI S start) := by
  intro n
  cases n with
  | zero => rfl
  | succ n =>
      obtain ⟨hfe, hfc, hfinv⟩ := optfirst S hs hsne hrange start
      rw [optPivotsAux, hfe,
        optPivotsAux_chain S hs hsne hrange _ n _ hfinv, hfc]
      have htail : ∀ a ∈ (List.range n).map (goodIter S (nextGoodI S start)),
          validSecondI vals a = true := by
        intro a ha
        obtain ⟨j, _, rfl⟩ := List.mem_map.1 ha
        rw [goodIter_shift S start j]
        exact (hvalid _).2 (goodIter_good S hs hsne hrange start j)
      rcases hc : S.contains (secOf start) with _ | _
      · -- anchor's second is not listed: the first pivot is filtered out
        have hPfalse : validSecondI vals start = false := by
          rcases hP : validSecondI vals start with _ | _
          · rfl
          · exfalso
            have h2 : S.contains (secOf start) = true :=
              List.elem_iff.2 ((hvalid start).1 hP)
            rw [hc] at h2
            cases h2
        rw [List.filter_cons_of_neg (by rw [hPfalse]; exact Bool.false_ne_true),
          List.filter_eq_self.2 htail]
        rw [List.length_map, List.length_range]
        apply List.map_congr_left
        intro a _
        rw [chainI_eq_goodIter_not S start hc a]
      · -- anchor's second is listed: the first pivot survives
        have hPtrue : validSecondI vals start = true :=
          (hvalid start).2 (List.elem_iff.mp hc)
        rw [List.filter_cons_of_pos hPtrue, List.filter_eq_self.2 htail]
        rw [List.length_cons, List.length_map, List.length_range]
        rw [List.range_succ_eq_map, List.map_cons, List.map_map]
        congr 1
        · rw [chainI_eq_goodIter S start hc 0]
          rfl
        · apply List.map_congr_left
          intro a _
          show goodIter S (nextGoodI S start) a = chainI S start (a + 1)
          rw [chainI_eq_goodIter S start hc (a + 1)]
          exact goodIter_shift S start a

theorem optChain (vals : List Int) (start : Int)
    (h1 : vals ≠ []) (h2 : vals.Nodup) (h3 : ∀ v ∈ vals, 0 ≤ v ∧ v ≤ 59) :
    ∀ n : Nat,
      optSurvivors start vals n =
        (List.range ((optSurvivors start vals n).length)).map
          (chainI (sortInts (normSeconds vals)) start) := by
  obtain ⟨hsort, hsne, hrange, hmem⟩ := S_props vals h1 h2 h3
  intro n
  have hvalid : ∀ t : Int, validSecondI vals t = true ↔
      secOf t ∈ sortInts (normSeconds vals) := by
    intro t
    rw [validSecondI_iff vals h1 t]
    exact (hmem (secOf t)).symm
  exact optChainCore (sortInts (normSeconds vals)) vals start hsort hsne
    hrange hvalid n

/-- C9: for a SECONDLY pattern at interval 1 with a non-empty BYSECOND
set (in range, without duplicates), the optimized advance that jumps
between listed seconds and the naive one-second advance produce exactly
the same sequence of pivots surviving the second limiter: both survivor
sequences are prefixes of one canonical chain, hence agree element by
element as far as both extend. -/
theorem secondly_fastpath_refines (vals : List Int) (start : Int)
    (h1 : vals ≠ []) (h2 : vals.Nodup) (h3 : ∀ v ∈ vals, 0 ≤ v ∧ v ≤ 59) :
    (∀ m : Nat, naiveSurvivors start vals m =
      (List.range ((naiveSurvivors start vals m).length)).map
        (chainI (sortInts (normSeconds vals)) start)) ∧
    (∀ n : Nat, optSurvivors start vals n =
      (List.range ((optSurvivors start vals n).length)).map
        (chainI (sortInts (normSeconds vals)) start)) ∧
    (∀ m n k : Nat, k ≤ (naiveSurvivors start vals m).length →
      k ≤ (optSurvivors start vals n).length →
      (naiveSurvivors start vals m).take k = (optSurvivors start vals n).take k) := by
  refine ⟨fun m => (naiveChain vals start h1 h2 h3 m).1,
    optChain vals start h1 h2 h3, ?_⟩
  intro m n k hk1 hk2
  rw [(naiveChain vals start h1 h2 h3 m).1, optChain vals start h1 h2 h3 n]
  rw [← List.map_take, ← List.map_take, List.take_range, List.take_range]
  rw [Nat.min_eq_left hk1, Nat.min_eq_left hk2]

/-- Witness for C9 at BYSECOND={5,20} from instant 100: the first four
surviving pivots agree between the two advances. -/
theorem secondly_fastpath_refines_witness :
    (naiveSurvivors 100 [5, 20] 101).take 4 = (optSurvivors 100 [5, 20] 5).take 4 :=
  (secondly_fastpath_refines [5, 20] 100 (by decide) (by decide) (by decide)).2.2
    101 5 4 (by decide) (by decide)

/-- Witness for C10 at a daily pattern with zero `Dtstart`. -/
theorem zero_dtstart_uses_now_witness :
    ∃ it, RRule.Iterator { defaultRRule with Frequency := Daily }
        ⟨2018, 8, 25, 9, 8, 7⟩ = some it ∧
      it.minTime = ⟨2018, 8, 25, 9, 8, 7⟩ ∧
      it.startState.cur = ⟨2018, 8, 25, 9, 8, 7⟩ :=
  zero_dtstart_uses_now _ _ rfl (by decide) (by decide)

end RRuleProof
